import Mathlib

/-!
# Builders.cpp: construction layer of the IR

A shallow embedding of `lib/IR/Builders.cpp`:

* the `Builder` value factories (types, attributes, affine expressions, affine
  maps, integer sets), each of which forwards its arguments and the bound
  context to a uniquing entry point of the context;
* `CFGFuncBuilder` (`createBlock`, `createOperation`) and `MLFuncBuilder`
  (`createOperation`, `createFor`), which allocate a node and link it into an
  intrusive list in front of the builder's insertion point.

Pointers are modelled as natural-number addresses, the heap reachable from a
builder as an explicit state that every member function receives and returns.
A call that does not complete (the process is aborted by a failed `assert`, or
the insertion point designates no place) is an `Except.error`, paired with the
builder and the heap as they are at that point.
-/

namespace mlir

/-! ## References to uniqued values -/

/-- A `Type *`: the identity of a uniqued type inside its context. -/
abbrev TypeRef := Nat
/-- An `Attribute *`. -/
abbrev AttributeRef := Nat
/-- An `AffineExpr *` (also `AffineDimExpr *`, `AffineSymbolExpr *`,
`AffineConstantExpr *`, which are subclasses). -/
abbrev AffineExprRef := Nat
/-- An `AffineMap *`. -/
abbrev AffineMapRef := Nat
/-- An `IntegerSet *`. -/
abbrev IntegerSetRef := Nat
/-- An `Identifier`: the identity of a uniqued string. -/
abbrev Identifier := Nat

/-- The enumerators of `AffineExpr::Kind` that `Builders.cpp` names: the five
binary operators. -/
inductive AffineExpr.Kind where
  | Add
  | Mul
  | Mod
  | FloorDiv
  | CeilDiv
  deriving DecidableEq, Repr

/-! ## Structural keys of the uniqued values -/

/-- Modelled from the spec: the structural description of a type (section 3 and
4.2 of the design: scalar floats, opaque scalars, integers by width, function
signatures, shaped aggregates with layout maps and memory space, vectors,
ranked and unranked tensors). `MLIRContext.cpp` and `Types.h` are not among the
sources; the constructors carry exactly the arguments that `Builders.cpp`
passes on. -/
inductive TypeKey where
  | bf16
  | f16
  | f32
  | f64
  | affineInt
  | tfControl
  | tfString
  | integer (width : Nat)
  | function (inputs results : List TypeRef)
  | memRef (shape : List Int) (elementType : TypeRef)
      (affineMapComposition : List AffineMapRef) (memorySpace : Nat)
  | vector (shape : List Nat) (elementType : TypeRef)
  | rankedTensor (shape : List Int) (elementType : TypeRef)
  | unrankedTensor (elementType : TypeRef)
  deriving DecidableEq, Repr

/-- Modelled from the spec: the structural description of a literal attribute
(boolean, integer, float, string, array, affine map, type, function
reference). `Attributes.h` is not among the sources. A `double` is represented
by its 64-bit pattern, so that equality of keys is equality of bits. -/
inductive AttributeKey where
  | bool (value : Bool)
  | integer (value : Int)
  | float (bits : Nat)
  | string (bytes : String)
  | array (value : List AttributeRef)
  | affineMap (value : AffineMapRef)
  | type (type : TypeRef)
  | function (value : Nat)
  deriving DecidableEq, Repr

/-- Modelled from the spec: the structural description of an affine expression
(dimension, symbol, integer constant, binary node with its operator and the
identities of its two operands). `AffineExpr.h` is not among the sources. -/
inductive AffineExprKey where
  | dim (position : Nat)
  | symbol (position : Nat)
  | constant (constant : Int)
  | binary (kind : AffineExpr.Kind) (lhs rhs : AffineExprRef)
  deriving DecidableEq, Repr

/-- Modelled from the spec: the structural description of an affine map
(dimension count, symbol count, ordered results, optional range sizes). -/
structure AffineMapKey where
  dimCount : Nat
  symbolCount : Nat
  results : List AffineExprRef
  rangeSizes : List AffineExprRef
  deriving DecidableEq, Repr

/-- Modelled from the spec: the structural description of an integer set
(dimension count, symbol count, ordered constraints, parallel equality
flags). -/
structure IntegerSetKey where
  dimCount : Nat
  symbolCount : Nat
  constraints : List AffineExprRef
  isEq : List Bool
  deriving DecidableEq, Repr

/-! ## The context and its uniquing tables -/

/-- Modelled from the spec: the context owns one interning table per value
category (section 3). `MLIRContext.cpp` is not among the sources. A table is an
arena of keys; the reference of a value is its index in the arena. -/
structure MLIRContext where
  types : List TypeKey
  attributes : List AttributeKey
  affineExprs : List AffineExprKey
  affineMaps : List AffineMapKey
  integerSets : List IntegerSetKey
  deriving DecidableEq, Repr

/-- Modelled from the spec: `intern(category, canonicalKey) -> ValueRef`
(section 4.1), lookup-or-insert on one table: the key already in the arena is
answered with its index, a new key is appended and answered with the index it
gets. Nothing is ever removed. -/
def intern {κ : Type} [DecidableEq κ] (table : List κ) (key : κ) : Nat × List κ :=
  if key ∈ table then (table.indexOf key, table) else (table.length, table ++ [key])

/-- The ways in which a member function does not complete. -/
inductive Error where
  /-- A factory call whose structural key is internally inconsistent. -/
  | malformedValue
  /-- The `assert` inside `cast<CFGValue>` or `cast<MLValue>` failed: the
  process is aborted at that point and the call does not return. -/
  | aborted
  /-- The insertion point does not designate a place in a block: the block
  pointer is null or the iterator is not an iterator of the block's list. -/
  | invalidInsertionPoint
  deriving DecidableEq, Repr

/-- Modelled from the spec: uniquing of one type key in the context's type
table; every `Type::get...` entry point below goes through it. -/
def MLIRContext.internType (context : MLIRContext) (key : TypeKey) : TypeRef × MLIRContext :=
  let r := intern context.types key
  (r.1, { context with types := r.2 })

/-- Modelled from the spec: uniquing of one attribute key. -/
def MLIRContext.internAttribute (context : MLIRContext) (key : AttributeKey) :
    AttributeRef × MLIRContext :=
  let r := intern context.attributes key
  (r.1, { context with attributes := r.2 })

/-- Modelled from the spec: uniquing of one affine expression key. -/
def MLIRContext.internAffineExpr (context : MLIRContext) (key : AffineExprKey) :
    AffineExprRef × MLIRContext :=
  let r := intern context.affineExprs key
  (r.1, { context with affineExprs := r.2 })

/-- Modelled from the spec: uniquing of one affine map key. -/
def MLIRContext.internAffineMap (context : MLIRContext) (key : AffineMapKey) :
    AffineMapRef × MLIRContext :=
  let r := intern context.affineMaps key
  (r.1, { context with affineMaps := r.2 })

/-- Modelled from the spec: uniquing of one integer set key. -/
def MLIRContext.internIntegerSet (context : MLIRContext) (key : IntegerSetKey) :
    IntegerSetRef × MLIRContext :=
  let r := intern context.integerSets key
  (r.1, { context with integerSets := r.2 })

/-! ### Entry points of the context called by `Builders.cpp`

Each is modelled from the spec (section 4.2: a factory call is translated into
a canonical key and forwarded to the context's `intern`); their C++ bodies are
in files that are not among the sources. -/

/-- Modelled from the spec: `Type::getBF16(context)`. -/
def IRType.getBF16 (context : MLIRContext) := context.internType .bf16
/-- Modelled from the spec: `Type::getF16(context)`. -/
def IRType.getF16 (context : MLIRContext) := context.internType .f16
/-- Modelled from the spec: `Type::getF32(context)`. -/
def IRType.getF32 (context : MLIRContext) := context.internType .f32
/-- Modelled from the spec: `Type::getF64(context)`. -/
def IRType.getF64 (context : MLIRContext) := context.internType .f64
/-- Modelled from the spec: `Type::getAffineInt(context)`. -/
def IRType.getAffineInt (context : MLIRContext) := context.internType .affineInt
/-- Modelled from the spec: `Type::getTFControl(context)`. -/
def IRType.getTFControl (context : MLIRContext) := context.internType .tfControl
/-- Modelled from the spec: `Type::getTFString(context)`. -/
def IRType.getTFString (context : MLIRContext) := context.internType .tfString
/-- Modelled from the spec: `Type::getInteger(width, context)`. -/
def IRType.getInteger (width : Nat) (context : MLIRContext) := context.internType (.integer width)
/-- Modelled from the spec: `FunctionType::get(inputs, results, context)`. -/
def FunctionType.get (inputs results : List TypeRef) (context : MLIRContext) :=
  context.internType (.function inputs results)

/-- Modelled from the spec: `MemRefType::get(shape, elementType,
affineMapComposition, memorySpace)`; the context is the one that owns
`elementType`. Section 4.1 of the design makes a request whose layout maps
declare a dimensionality incompatible with the shape fail with a malformed
value error, nothing being interned; which pairs are incompatible is not fixed
there, so the test is the parameter `incompatible`. -/
def MemRefType.get (incompatible : List Int → List AffineMapRef → Bool)
    (shape : List Int) (elementType : TypeRef) (affineMapComposition : List AffineMapRef)
    (memorySpace : Nat) (context : MLIRContext) : Except Error TypeRef × MLIRContext :=
  if incompatible shape affineMapComposition then (.error .malformedValue, context)
  else
    let r := context.internType (.memRef shape elementType affineMapComposition memorySpace)
    (.ok r.1, r.2)

/-- Modelled from the spec: `VectorType::get(shape, elementType)`. -/
def VectorType.get (shape : List Nat) (elementType : TypeRef) (context : MLIRContext) :=
  context.internType (.vector shape elementType)
/-- Modelled from the spec: `RankedTensorType::get(shape, elementType)`. -/
def RankedTensorType.get (shape : List Int) (elementType : TypeRef) (context : MLIRContext) :=
  context.internType (.rankedTensor shape elementType)
/-- Modelled from the spec: `UnrankedTensorType::get(elementType)`. -/
def UnrankedTensorType.get (elementType : TypeRef) (context : MLIRContext) :=
  context.internType (.unrankedTensor elementType)

/-- Modelled from the spec: `BoolAttr::get(value, context)`. -/
def BoolAttr.get (value : Bool) (context : MLIRContext) := context.internAttribute (.bool value)
/-- Modelled from the spec: `IntegerAttr::get(value, context)`. -/
def IntegerAttr.get (value : Int) (context : MLIRContext) := context.internAttribute (.integer value)
/-- Modelled from the spec: `FloatAttr::get(value, context)`, the `double`
given by its bit pattern. -/
def FloatAttr.get (bits : Nat) (context : MLIRContext) := context.internAttribute (.float bits)
/-- Modelled from the spec: `StringAttr::get(bytes, context)`. -/
def StringAttr.get (bytes : String) (context : MLIRContext) := context.internAttribute (.string bytes)
/-- Modelled from the spec: `ArrayAttr::get(value, context)`. -/
def ArrayAttr.get (value : List AttributeRef) (context : MLIRContext) :=
  context.internAttribute (.array value)
/-- Modelled from the spec: `AffineMapAttr::get(value, context)`. -/
def AffineMapAttr.get (value : AffineMapRef) (context : MLIRContext) :=
  context.internAttribute (.affineMap value)
/-- Modelled from the spec: `TypeAttr::get(type, context)`. -/
def TypeAttr.get (type : TypeRef) (context : MLIRContext) := context.internAttribute (.type type)
/-- Modelled from the spec: `FunctionAttr::get(value, context)`, the function
given by its address. -/
def FunctionAttr.get (value : Nat) (context : MLIRContext) := context.internAttribute (.function value)

/-- Modelled from the spec: `AffineMap::get(dimCount, symbolCount, results,
rangeSizes, context)`. -/
def AffineMap.get (dimCount symbolCount : Nat) (results rangeSizes : List AffineExprRef)
    (context : MLIRContext) :=
  context.internAffineMap ⟨dimCount, symbolCount, results, rangeSizes⟩
/-- Modelled from the spec: `AffineDimExpr::get(position, context)`. -/
def AffineDimExpr.get (position : Nat) (context : MLIRContext) :=
  context.internAffineExpr (.dim position)
/-- Modelled from the spec: `AffineSymbolExpr::get(position, context)`. -/
def AffineSymbolExpr.get (position : Nat) (context : MLIRContext) :=
  context.internAffineExpr (.symbol position)
/-- Modelled from the spec: `AffineConstantExpr::get(constant, context)`. -/
def AffineConstantExpr.get (constant : Int) (context : MLIRContext) :=
  context.internAffineExpr (.constant constant)
/-- Modelled from the spec: `AffineBinaryOpExpr::get(kind, lhs, rhs, context)`:
the key is the operator together with the identities of the operands, in the
order given. -/
def AffineBinaryOpExpr.get (kind : AffineExpr.Kind) (lhs rhs : AffineExprRef)
    (context : MLIRContext) :=
  context.internAffineExpr (.binary kind lhs rhs)
/-- Modelled from the spec: `IntegerSet::get(dimCount, symbolCount, constraints,
isEq, context)`. -/
def IntegerSet.get (dimCount symbolCount : Nat) (constraints : List AffineExprRef)
    (isEq : List Bool) (context : MLIRContext) :=
  context.internIntegerSet ⟨dimCount, symbolCount, constraints, isEq⟩

/-! ## `Builder`: the value factories of `Builders.cpp`

`Builder` holds the pointer `context`; a member function is a function of the
state of that context and returns the state it leaves. -/

namespace Builder

/-- Source: `Builder::getBF16Type`. -/
def getBF16Type (context : MLIRContext) := IRType.getBF16 context
/-- Source: `Builder::getF16Type`. -/
def getF16Type (context : MLIRContext) := IRType.getF16 context
/-- Source: `Builder::getF32Type`. -/
def getF32Type (context : MLIRContext) := IRType.getF32 context
/-- Source: `Builder::getF64Type`. -/
def getF64Type (context : MLIRContext) := IRType.getF64 context
/-- Source: `Builder::getAffineIntType`. -/
def getAffineIntType (context : MLIRContext) := IRType.getAffineInt context
/-- Source: `Builder::getTFControlType`. -/
def getTFControlType (context : MLIRContext) := IRType.getTFControl context
/-- Source: `Builder::getTFStringType`. -/
def getTFStringType (context : MLIRContext) := IRType.getTFString context
/-- Source: `Builder::getIntegerType`. -/
def getIntegerType (width : Nat) (context : MLIRContext) := IRType.getInteger width context
/-- Source: `Builder::getFunctionType`. -/
def getFunctionType (inputs results : List TypeRef) (context : MLIRContext) :=
  FunctionType.get inputs results context
/-- Source: `Builder::getMemRefType`. -/
def getMemRefType (incompatible : List Int → List AffineMapRef → Bool)
    (shape : List Int) (elementType : TypeRef) (affineMapComposition : List AffineMapRef)
    (memorySpace : Nat) (context : MLIRContext) :=
  MemRefType.get incompatible shape elementType affineMapComposition memorySpace context
/-- Source: `Builder::getVectorType`. -/
def getVectorType (shape : List Nat) (elementType : TypeRef) (context : MLIRContext) :=
  VectorType.get shape elementType context
/-- Source: `Builder::getTensorType(ArrayRef<int>, Type *)`. -/
def getTensorType (shape : List Int) (elementType : TypeRef) (context : MLIRContext) :=
  RankedTensorType.get shape elementType context
/-- Source: `Builder::getTensorType(Type *)`, the unranked overload. -/
def getUnrankedTensorType (elementType : TypeRef) (context : MLIRContext) :=
  UnrankedTensorType.get elementType context

/-- Source: `Builder::getBoolAttr`. -/
def getBoolAttr (value : Bool) (context : MLIRContext) := BoolAttr.get value context
/-- Source: `Builder::getIntegerAttr`. -/
def getIntegerAttr (value : Int) (context : MLIRContext) := IntegerAttr.get value context
/-- Source: `Builder::getFloatAttr`. -/
def getFloatAttr (bits : Nat) (context : MLIRContext) := FloatAttr.get bits context
/-- Source: `Builder::getStringAttr`. -/
def getStringAttr (bytes : String) (context : MLIRContext) := StringAttr.get bytes context
/-- Source: `Builder::getArrayAttr`. -/
def getArrayAttr (value : List AttributeRef) (context : MLIRContext) := ArrayAttr.get value context
/-- Source: `Builder::getAffineMapAttr`. -/
def getAffineMapAttr (value : AffineMapRef) (context : MLIRContext) :=
  AffineMapAttr.get value context
/-- Source: `Builder::getTypeAttr`. -/
def getTypeAttr (type : TypeRef) (context : MLIRContext) := TypeAttr.get type context
/-- Source: `Builder::getFunctionAttr`. -/
def getFunctionAttr (value : Nat) (context : MLIRContext) := FunctionAttr.get value context

/-- Source: `Builder::getAffineMap`. -/
def getAffineMap (dimCount symbolCount : Nat) (results rangeSizes : List AffineExprRef)
    (context : MLIRContext) :=
  AffineMap.get dimCount symbolCount results rangeSizes context
/-- Source: `Builder::getDimExpr`. -/
def getDimExpr (position : Nat) (context : MLIRContext) := AffineDimExpr.get position context
/-- Source: `Builder::getSymbolExpr`. -/
def getSymbolExpr (position : Nat) (context : MLIRContext) := AffineSymbolExpr.get position context
/-- Source: `Builder::getConstantExpr`. -/
def getConstantExpr (constant : Int) (context : MLIRContext) :=
  AffineConstantExpr.get constant context
/-- Source: `Builder::getAddExpr`. -/
def getAddExpr (lhs rhs : AffineExprRef) (context : MLIRContext) :=
  AffineBinaryOpExpr.get AffineExpr.Kind.Add lhs rhs context
/-- Source: `Builder::getMulExpr`. -/
def getMulExpr (lhs rhs : AffineExprRef) (context : MLIRContext) :=
  AffineBinaryOpExpr.get AffineExpr.Kind.Mul lhs rhs context
/-- Source: `Builder::getModExpr`. -/
def getModExpr (lhs rhs : AffineExprRef) (context : MLIRContext) :=
  AffineBinaryOpExpr.get AffineExpr.Kind.Mod lhs rhs context
/-- Source: `Builder::getFloorDivExpr`. -/
def getFloorDivExpr (lhs rhs : AffineExprRef) (context : MLIRContext) :=
  AffineBinaryOpExpr.get AffineExpr.Kind.FloorDiv lhs rhs context
/-- Source: `Builder::getCeilDivExpr`. -/
def getCeilDivExpr (lhs rhs : AffineExprRef) (context : MLIRContext) :=
  AffineBinaryOpExpr.get AffineExpr.Kind.CeilDiv lhs rhs context
/-- Source: `Builder::getIntegerSet`. -/
def getIntegerSet (dimCount symbolCount : Nat) (constraints : List AffineExprRef)
    (isEq : List Bool) (context : MLIRContext) :=
  IntegerSet.get dimCount symbolCount constraints isEq context

end Builder

/-! ## Calls of the value factories

The value factories of `Builder`, as data: one constructor for each member
function, with its arguments. -/

/-- A reference to a uniqued value, together with the category (the C++ class)
the reference belongs to. -/
inductive ValueRef where
  | type (ref : TypeRef)
  | attribute (ref : AttributeRef)
  | affineExpr (ref : AffineExprRef)
  | affineMap (ref : AffineMapRef)
  | integerSet (ref : IntegerSetRef)
  deriving DecidableEq, Repr

/-- A call of one of the value factories of `Builder` with its arguments. -/
inductive FactoryCall where
  | getBF16Type
  | getF16Type
  | getF32Type
  | getF64Type
  | getAffineIntType
  | getTFControlType
  | getTFStringType
  | getIntegerType (width : Nat)
  | getFunctionType (inputs results : List TypeRef)
  | getMemRefType (shape : List Int) (elementType : TypeRef)
      (affineMapComposition : List AffineMapRef) (memorySpace : Nat)
  | getVectorType (shape : List Nat) (elementType : TypeRef)
  | getTensorType (shape : List Int) (elementType : TypeRef)
  | getUnrankedTensorType (elementType : TypeRef)
  | getBoolAttr (value : Bool)
  | getIntegerAttr (value : Int)
  | getFloatAttr (bits : Nat)
  | getStringAttr (bytes : String)
  | getArrayAttr (value : List AttributeRef)
  | getAffineMapAttr (value : AffineMapRef)
  | getTypeAttr (type : TypeRef)
  | getFunctionAttr (value : Nat)
  | getAffineMap (dimCount symbolCount : Nat) (results rangeSizes : List AffineExprRef)
  | getDimExpr (position : Nat)
  | getSymbolExpr (position : Nat)
  | getConstantExpr (constant : Int)
  | getAddExpr (lhs rhs : AffineExprRef)
  | getMulExpr (lhs rhs : AffineExprRef)
  | getModExpr (lhs rhs : AffineExprRef)
  | getFloorDivExpr (lhs rhs : AffineExprRef)
  | getCeilDivExpr (lhs rhs : AffineExprRef)
  | getIntegerSet (dimCount symbolCount : Nat) (constraints : List AffineExprRef)
      (isEq : List Bool)
  deriving DecidableEq, Repr

namespace FactoryCall

/-- The outcome of a factory that cannot fail, tagged with its category. -/
def answer (tag : Nat → ValueRef) (r : Nat × MLIRContext) : Except Error ValueRef × MLIRContext :=
  (.ok (tag r.1), r.2)

/-- Performs the call on a context: the outcome and the context left. -/
def run (incompatible : List Int → List AffineMapRef → Bool) :
    FactoryCall → MLIRContext → Except Error ValueRef × MLIRContext
  | getBF16Type, c => answer .type (Builder.getBF16Type c)
  | getF16Type, c => answer .type (Builder.getF16Type c)
  | getF32Type, c => answer .type (Builder.getF32Type c)
  | getF64Type, c => answer .type (Builder.getF64Type c)
  | getAffineIntType, c => answer .type (Builder.getAffineIntType c)
  | getTFControlType, c => answer .type (Builder.getTFControlType c)
  | getTFStringType, c => answer .type (Builder.getTFStringType c)
  | getIntegerType width, c => answer .type (Builder.getIntegerType width c)
  | getFunctionType inputs results, c => answer .type (Builder.getFunctionType inputs results c)
  | getMemRefType shape elementType maps memorySpace, c =>
    match Builder.getMemRefType incompatible shape elementType maps memorySpace c with
    | (.ok ref, c1) => (.ok (.type ref), c1)
    | (.error e, c1) => (.error e, c1)
  | getVectorType shape elementType, c => answer .type (Builder.getVectorType shape elementType c)
  | getTensorType shape elementType, c => answer .type (Builder.getTensorType shape elementType c)
  | getUnrankedTensorType elementType, c =>
    answer .type (Builder.getUnrankedTensorType elementType c)
  | getBoolAttr value, c => answer .attribute (Builder.getBoolAttr value c)
  | getIntegerAttr value, c => answer .attribute (Builder.getIntegerAttr value c)
  | getFloatAttr bits, c => answer .attribute (Builder.getFloatAttr bits c)
  | getStringAttr bytes, c => answer .attribute (Builder.getStringAttr bytes c)
  | getArrayAttr value, c => answer .attribute (Builder.getArrayAttr value c)
  | getAffineMapAttr value, c => answer .attribute (Builder.getAffineMapAttr value c)
  | getTypeAttr type, c => answer .attribute (Builder.getTypeAttr type c)
  | getFunctionAttr value, c => answer .attribute (Builder.getFunctionAttr value c)
  | getAffineMap dimCount symbolCount results rangeSizes, c =>
    answer .affineMap (Builder.getAffineMap dimCount symbolCount results rangeSizes c)
  | getDimExpr position, c => answer .affineExpr (Builder.getDimExpr position c)
  | getSymbolExpr position, c => answer .affineExpr (Builder.getSymbolExpr position c)
  | getConstantExpr constant, c => answer .affineExpr (Builder.getConstantExpr constant c)
  | getAddExpr lhs rhs, c => answer .affineExpr (Builder.getAddExpr lhs rhs c)
  | getMulExpr lhs rhs, c => answer .affineExpr (Builder.getMulExpr lhs rhs c)
  | getModExpr lhs rhs, c => answer .affineExpr (Builder.getModExpr lhs rhs c)
  | getFloorDivExpr lhs rhs, c => answer .affineExpr (Builder.getFloorDivExpr lhs rhs c)
  | getCeilDivExpr lhs rhs, c => answer .affineExpr (Builder.getCeilDivExpr lhs rhs c)
  | getIntegerSet dimCount symbolCount constraints isEq, c =>
    answer .integerSet (Builder.getIntegerSet dimCount symbolCount constraints isEq c)

/-- Performs a sequence of calls one after the other on a context and answers
the context left at the end. -/
def runAll (incompatible : List Int → List AffineMapRef → Bool) :
    List FactoryCall → MLIRContext → MLIRContext
  | [], c => c
  | call :: rest, c => runAll incompatible rest (call.run incompatible c).2

end FactoryCall

/-- The structural key of a value of any category. -/
inductive Key where
  | type (key : TypeKey)
  | attribute (key : AttributeKey)
  | affineExpr (key : AffineExprKey)
  | affineMap (key : AffineMapKey)
  | integerSet (key : IntegerSetKey)
  deriving DecidableEq, Repr

/-- Uniquing of a key of any category in the table of its category. -/
def MLIRContext.internKey (context : MLIRContext) : Key → ValueRef × MLIRContext
  | .type key => ((context.internType key).1 |> ValueRef.type, (context.internType key).2)
  | .attribute key =>
    ((context.internAttribute key).1 |> ValueRef.attribute, (context.internAttribute key).2)
  | .affineExpr key =>
    ((context.internAffineExpr key).1 |> ValueRef.affineExpr, (context.internAffineExpr key).2)
  | .affineMap key =>
    ((context.internAffineMap key).1 |> ValueRef.affineMap, (context.internAffineMap key).2)
  | .integerSet key =>
    ((context.internIntegerSet key).1 |> ValueRef.integerSet, (context.internIntegerSet key).2)

namespace FactoryCall

/-- The key that a factory call hands to the context. -/
def key : FactoryCall → Key
  | getBF16Type => .type .bf16
  | getF16Type => .type .f16
  | getF32Type => .type .f32
  | getF64Type => .type .f64
  | getAffineIntType => .type .affineInt
  | getTFControlType => .type .tfControl
  | getTFStringType => .type .tfString
  | getIntegerType width => .type (.integer width)
  | getFunctionType inputs results => .type (.function inputs results)
  | getMemRefType shape elementType maps memorySpace =>
    .type (.memRef shape elementType maps memorySpace)
  | getVectorType shape elementType => .type (.vector shape elementType)
  | getTensorType shape elementType => .type (.rankedTensor shape elementType)
  | getUnrankedTensorType elementType => .type (.unrankedTensor elementType)
  | getBoolAttr value => .attribute (.bool value)
  | getIntegerAttr value => .attribute (.integer value)
  | getFloatAttr bits => .attribute (.float bits)
  | getStringAttr bytes => .attribute (.string bytes)
  | getArrayAttr value => .attribute (.array value)
  | getAffineMapAttr value => .attribute (.affineMap value)
  | getTypeAttr type => .attribute (.type type)
  | getFunctionAttr value => .attribute (.function value)
  | getAffineMap dimCount symbolCount results rangeSizes =>
    .affineMap ⟨dimCount, symbolCount, results, rangeSizes⟩
  | getDimExpr position => .affineExpr (.dim position)
  | getSymbolExpr position => .affineExpr (.symbol position)
  | getConstantExpr constant => .affineExpr (.constant constant)
  | getAddExpr lhs rhs => .affineExpr (.binary .Add lhs rhs)
  | getMulExpr lhs rhs => .affineExpr (.binary .Mul lhs rhs)
  | getModExpr lhs rhs => .affineExpr (.binary .Mod lhs rhs)
  | getFloorDivExpr lhs rhs => .affineExpr (.binary .FloorDiv lhs rhs)
  | getCeilDivExpr lhs rhs => .affineExpr (.binary .CeilDiv lhs rhs)
  | getIntegerSet dimCount symbolCount constraints isEq =>
    .integerSet ⟨dimCount, symbolCount, constraints, isEq⟩

/-- The factory call that hands a given key to the context. -/
def ofKey : Key → FactoryCall
  | .type .bf16 => getBF16Type
  | .type .f16 => getF16Type
  | .type .f32 => getF32Type
  | .type .f64 => getF64Type
  | .type .affineInt => getAffineIntType
  | .type .tfControl => getTFControlType
  | .type .tfString => getTFStringType
  | .type (.integer width) => getIntegerType width
  | .type (.function inputs results) => getFunctionType inputs results
  | .type (.memRef shape elementType maps memorySpace) =>
    getMemRefType shape elementType maps memorySpace
  | .type (.vector shape elementType) => getVectorType shape elementType
  | .type (.rankedTensor shape elementType) => getTensorType shape elementType
  | .type (.unrankedTensor elementType) => getUnrankedTensorType elementType
  | .attribute (.bool value) => getBoolAttr value
  | .attribute (.integer value) => getIntegerAttr value
  | .attribute (.float bits) => getFloatAttr bits
  | .attribute (.string bytes) => getStringAttr bytes
  | .attribute (.array value) => getArrayAttr value
  | .attribute (.affineMap value) => getAffineMapAttr value
  | .attribute (.type type) => getTypeAttr type
  | .attribute (.function value) => getFunctionAttr value
  | .affineMap ⟨dimCount, symbolCount, results, rangeSizes⟩ =>
    getAffineMap dimCount symbolCount results rangeSizes
  | .affineExpr (.dim position) => getDimExpr position
  | .affineExpr (.symbol position) => getSymbolExpr position
  | .affineExpr (.constant constant) => getConstantExpr constant
  | .affineExpr (.binary .Add lhs rhs) => getAddExpr lhs rhs
  | .affineExpr (.binary .Mul lhs rhs) => getMulExpr lhs rhs
  | .affineExpr (.binary .Mod lhs rhs) => getModExpr lhs rhs
  | .affineExpr (.binary .FloorDiv lhs rhs) => getFloorDivExpr lhs rhs
  | .affineExpr (.binary .CeilDiv lhs rhs) => getCeilDivExpr lhs rhs
  | .integerSet ⟨dimCount, symbolCount, constraints, isEq⟩ =>
    getIntegerSet dimCount symbolCount constraints isEq

/-- The call is rejected as a malformed value request. -/
def malformed (incompatible : List Int → List AffineMapRef → Bool) : FactoryCall → Bool
  | getMemRefType shape _ maps _ => incompatible shape maps
  | _ => false

end FactoryCall

/-! ## Values, operation descriptions and nodes -/

/-- Modelled from the spec: a value of the graph form (section 3; the design
notes give the closed pair graph value or tree value). `SSAValue.h` is not
among the sources. The value is identified by its address. -/
structure CFGValue where
  addr : Nat
  deriving DecidableEq, Repr

/-- Modelled from the spec: a value of the tree form. -/
structure MLValue where
  addr : Nat
  deriving DecidableEq, Repr

/-- Modelled from the spec: an `SSAValue *`, the generic value-producer
reference of an operation description; it is a graph value or a tree value. -/
inductive SSAValue where
  | cfg (value : CFGValue)
  | ml (value : MLValue)
  deriving DecidableEq, Repr

/-- The address of the object an `SSAValue *` points to. -/
def SSAValue.addr : SSAValue → Nat
  | .cfg value => value.addr
  | .ml value => value.addr

/-- The call `cast<CFGValue>(elt)` of LLVM: `assert(isa<CFGValue>(elt))`
followed by a static cast of the pointer. It has no failure result. With
assertions compiled in (`assertions = true`) an operand that is not a graph
value aborts the process, which is the answer `none`; with assertions compiled
out (`NDEBUG`) the pointer is handed on as it is, as a `CFGValue *` to the
same address. -/
def castCFGValue (assertions : Bool) : SSAValue → Option CFGValue
  | .cfg value => some value
  | .ml value => if assertions then none else some ⟨value.addr⟩

/-- The call `cast<MLValue>(elt)` of LLVM: `assert(isa<MLValue>(elt))` followed
by a static cast of the pointer. With assertions compiled in an operand that
is not a tree value aborts the process (`none`); with assertions compiled out
the pointer is handed on as it is, as an `MLValue *` to the same address. -/
def castMLValue (assertions : Bool) : SSAValue → Option MLValue
  | .cfg value => if assertions then none else some ⟨value.addr⟩
  | .ml value => some value

/-- A `NamedAttribute`: a name and the attribute it is bound to. -/
abbrev NamedAttribute := Identifier × AttributeRef

/-- The fields of `OperationState` that `createOperation` reads: `name`,
`operands`, `types`, `attributes`. -/
structure OperationState where
  name : Identifier
  operands : List SSAValue
  types : List TypeRef
  attributes : List NamedAttribute
  deriving DecidableEq, Repr

/-- Modelled from the spec: an `OperationInst` object, the operation node of a
graph body (section 3): its address and the name, operands, result types and
attributes it carries. `Instructions.h` is not among the sources. -/
structure OperationInst where
  addr : Nat
  name : Identifier
  operands : List CFGValue
  types : List TypeRef
  attributes : List NamedAttribute
  deriving DecidableEq, Repr

/-- Modelled from the spec: an `OperationStmt` object, the operation statement
of a tree body (section 3): its address and the name, operands, result types
and attributes it carries. `Statements.h` is not among the sources. -/
structure OperationStmt where
  addr : Nat
  name : Identifier
  operands : List MLValue
  types : List TypeRef
  attributes : List NamedAttribute
  deriving DecidableEq, Repr

/-- Modelled from the spec: a `ForStmt` object, the loop statement of a tree
body, which owns a lower bound, an upper bound and a step (section 3). Its
nested statement list is the one the heap keeps at its address.
`Statements.h` is not among the sources. -/
structure ForStmt where
  addr : Nat
  lowerBound : AffineExprRef
  upperBound : AffineExprRef
  step : AffineExprRef
  deriving DecidableEq, Repr

/-- Modelled from the spec: a `Statement` of a tree body, an operation
statement or a loop (section 3). -/
inductive Statement where
  | operationStmt (stmt : OperationStmt)
  | forStmt (stmt : ForStmt)
  deriving DecidableEq, Repr

/-- The address of a statement object. -/
def Statement.addr : Statement → Nat
  | .operationStmt stmt => stmt.addr
  | .forStmt stmt => stmt.addr

/-! ## Intrusive lists and their iterators

`BasicBlock::getOperations()` and `StmtBlock::getStatements()` are intrusive
doubly linked lists of LLVM. An iterator of such a list designates a node of
the list, or the position past the last node; it keeps designating the same
node when other nodes are linked or unlinked. -/

/-- An iterator of an intrusive list: at the node with a given address, or at
the end of the list. -/
inductive Iterator where
  | atNode (addr : Nat)
  | atEnd
  deriving DecidableEq, Repr

namespace ilist

/-- The call `list.begin()`. -/
def begin {α : Type} (addrOf : α → Nat) : List α → Iterator
  | [] => .atEnd
  | x :: _ => .atNode (addrOf x)

/-- The call `list.insert(where, New)`: links `New` in front of the node that
`where` designates, at the end when `where` is `end()`. The source gives no
meaning to an iterator that designates no node of the list; the model answers
`none`. -/
def insert {α : Type} (addrOf : α → Nat) : List α → Iterator → α → Option (List α)
  | l, .atEnd, new => some (l ++ [new])
  | [], .atNode _, _ => none
  | x :: xs, .atNode a, new =>
    if addrOf x = a then some (new :: x :: xs)
    else (insert addrOf xs (.atNode a) new).map (fun r => x :: r)

/-- The iterator designates a place of the list. -/
def valid {α : Type} (addrOf : α → Nat) (l : List α) : Iterator → Prop
  | .atEnd => True
  | .atNode a => a ∈ l.map addrOf

instance decidableValid {α : Type} (addrOf : α → Nat) (l : List α) (it : Iterator) :
    Decidable (valid addrOf l it) :=
  match it with
  | .atEnd => isTrue trivial
  | .atNode a => inferInstanceAs (Decidable (a ∈ l.map addrOf))

/-- The nodes of the list in front of the iterator. -/
def front {α : Type} (addrOf : α → Nat) (l : List α) : Iterator → List α
  | .atEnd => l
  | .atNode a => l.takeWhile (fun x => addrOf x != a)

/-- The nodes of the list from the iterator on. -/
def back {α : Type} (addrOf : α → Nat) (l : List α) : Iterator → List α
  | .atEnd => []
  | .atNode a => l.dropWhile (fun x => addrOf x != a)

end ilist

/-! ## The heap -/

/-- The memory the builders work on: the context, the allocator, and for every
address the list that the object at that address owns. -/
structure Heap where
  /-- The state of the `MLIRContext` the builders are bound to. -/
  context : MLIRContext
  /-- The address the next `new` returns. -/
  nextAddr : Nat
  /-- For the address of a `CFGFunction`, its list of blocks. -/
  blocks : Nat → List Nat
  /-- For the address of a `BasicBlock`, its list of operations. -/
  operations : Nat → List OperationInst
  /-- For the address of a `StmtBlock` (a function body or a `ForStmt`), its
  list of statements. -/
  statements : Nat → List Statement

/-- Assignment to the list owned by the object at `addr`. -/
def store {α : Type} (f : Nat → α) (addr : Nat) (value : α) : Nat → α :=
  fun a => if a = addr then value else f a

/-- Modelled from the spec: the expression `new BasicBlock()`, which allocates
a new block (section 4.3): a fresh address, whose operation list is empty.
`BasicBlock.h` is not among the sources. -/
def BasicBlock.new (h : Heap) : Nat × Heap :=
  (h.nextAddr, { h with nextAddr := h.nextAddr + 1, operations := store h.operations h.nextAddr [] })

/-- Modelled from the spec: `OperationInst::create(name, operands, types,
attributes, context)`, which synthesizes a new node carrying the name, the
narrowed operands, the result types and the attributes (section 4.3).
`Instructions.cpp` is not among the sources. -/
def OperationInst.create (name : Identifier) (operands : List CFGValue) (types : List TypeRef)
    (attributes : List NamedAttribute) (h : Heap) : OperationInst × Heap :=
  (⟨h.nextAddr, name, operands, types, attributes⟩, { h with nextAddr := h.nextAddr + 1 })

/-- Modelled from the spec: `OperationStmt::create(name, operands, types,
attributes, context)`. `Statements.cpp` is not among the sources. -/
def OperationStmt.create (name : Identifier) (operands : List MLValue) (types : List TypeRef)
    (attributes : List NamedAttribute) (h : Heap) : OperationStmt × Heap :=
  (⟨h.nextAddr, name, operands, types, attributes⟩, { h with nextAddr := h.nextAddr + 1 })

/-- Modelled from the spec: `new ForStmt(lowerBound, upperBound, step,
context)`: a loop statement that owns its three bounds and a nested statement
list, empty at construction (section 3). `Statements.h` is not among the
sources. -/
def ForStmt.new (lowerBound upperBound step : AffineExprRef) (h : Heap) : ForStmt × Heap :=
  (⟨h.nextAddr, lowerBound, upperBound, step⟩,
    { h with nextAddr := h.nextAddr + 1, statements := store h.statements h.nextAddr [] })

/-! ## `CFGFuncBuilder` -/

/-- The data members of `CFGFuncBuilder`: the function it builds, the current
block (null until an insertion point is set) and the insertion point. -/
structure CFGFuncBuilder where
  function : Nat
  block : Option Nat
  insertPoint : Iterator
  deriving DecidableEq, Repr

namespace CFGFuncBuilder

/-- Modelled from the spec: `setInsertionPoint(block)`, which positions the
cursor at the start of the block (section 4.3). `Builders.h` is not among the
sources. -/
def setInsertionPoint (b : CFGFuncBuilder) (block : Nat) (h : Heap) : CFGFuncBuilder :=
  { b with block := some block, insertPoint := ilist.begin OperationInst.addr (h.operations block) }

/-- Source: `CFGFuncBuilder::createBlock`. -/
def createBlock (b : CFGFuncBuilder) (h : Heap) : Nat × CFGFuncBuilder × Heap :=
  -- BasicBlock *b = new BasicBlock();
  let r := BasicBlock.new h
  -- function->push_back(b);
  let h2 := { r.2 with blocks := store r.2.blocks b.function (r.2.blocks b.function ++ [r.1]) }
  -- setInsertionPoint(b); return b;
  (r.1, b.setInsertionPoint r.1 h2, h2)

/-- The loop of `CFGFuncBuilder::createOperation`:
`for (auto elt : state.operands) operands.push_back(cast<CFGValue>(elt));`
the answer is `none` when the process is aborted inside one of the casts. -/
def castOperands (assertions : Bool) : List SSAValue → Option (List CFGValue)
  | [] => some []
  | elt :: rest =>
    match castCFGValue assertions elt with
    | none => none
    | some value => (castOperands assertions rest).map (fun operands => value :: operands)

/-- Source: `CFGFuncBuilder::createOperation`. The function has no failure
return of its own; `assertions` says whether the `assert` of `cast<>` is
compiled in. -/
def createOperation (b : CFGFuncBuilder) (assertions : Bool) (h : Heap) (state : OperationState) :
    Except Error OperationInst × CFGFuncBuilder × Heap :=
  -- for (auto elt : state.operands) operands.push_back(cast<CFGValue>(elt));
  match castOperands assertions state.operands with
  | none => (.error .aborted, b, h)
  | some operands =>
    -- auto *op = OperationInst::create(state.name, operands, state.types, state.attributes, context);
    let r := OperationInst.create state.name operands state.types state.attributes h
    -- block->getOperations().insert(insertPoint, op);
    match b.block with
    | none => (.error .invalidInsertionPoint, b, r.2)
    | some block =>
      match ilist.insert OperationInst.addr (r.2.operations block) b.insertPoint r.1 with
      | none => (.error .invalidInsertionPoint, b, r.2)
      | some l =>
        -- return op;
        (.ok r.1, b, { r.2 with operations := store r.2.operations block l })

end CFGFuncBuilder

/-! ## `MLFuncBuilder` -/

/-- The data members of `MLFuncBuilder`: the current statement block (null
until an insertion point is set) and the insertion point. -/
structure MLFuncBuilder where
  block : Option Nat
  insertPoint : Iterator
  deriving DecidableEq, Repr

namespace MLFuncBuilder

/-- The loop of `MLFuncBuilder::createOperation`:
`for (auto elt : state.operands) operands.push_back(cast<MLValue>(elt));`
the answer is `none` when the process is aborted inside one of the casts. -/
def castOperands (assertions : Bool) : List SSAValue → Option (List MLValue)
  | [] => some []
  | elt :: rest =>
    match castMLValue assertions elt with
    | none => none
    | some value => (castOperands assertions rest).map (fun operands => value :: operands)

/-- Source: `MLFuncBuilder::createOperation`. The function has no failure
return of its own; `assertions` says whether the `assert` of `cast<>` is
compiled in. -/
def createOperation (b : MLFuncBuilder) (assertions : Bool) (h : Heap) (state : OperationState) :
    Except Error OperationStmt × MLFuncBuilder × Heap :=
  -- for (auto elt : state.operands) operands.push_back(cast<MLValue>(elt));
  match castOperands assertions state.operands with
  | none => (.error .aborted, b, h)
  | some operands =>
    -- auto *op = OperationStmt::create(state.name, operands, state.types, state.attributes, context);
    let r := OperationStmt.create state.name operands state.types state.attributes h
    -- block->getStatements().insert(insertPoint, op);
    match b.block with
    | none => (.error .invalidInsertionPoint, b, r.2)
    | some block =>
      match ilist.insert Statement.addr (r.2.statements block) b.insertPoint (.operationStmt r.1) with
      | none => (.error .invalidInsertionPoint, b, r.2)
      | some l =>
        -- return op;
        (.ok r.1, b, { r.2 with statements := store r.2.statements block l })

/-- Source: `MLFuncBuilder::createFor`; a null `step` is `none`. -/
def createFor (b : MLFuncBuilder) (h : Heap) (lowerBound upperBound : AffineExprRef)
    (step : Option AffineExprRef) : Except Error ForStmt × MLFuncBuilder × Heap :=
  -- if (!step) step = getConstantExpr(1);
  let s : AffineExprRef × Heap :=
    match step with
    | some step => (step, h)
    | none =>
      let c := Builder.getConstantExpr 1 h.context
      (c.1, { h with context := c.2 })
  -- auto *stmt = new ForStmt(lowerBound, upperBound, step, context);
  let r := ForStmt.new lowerBound upperBound s.1 s.2
  -- block->getStatements().insert(insertPoint, stmt);
  match b.block with
  | none => (.error .invalidInsertionPoint, b, r.2)
  | some block =>
    match ilist.insert Statement.addr (r.2.statements block) b.insertPoint (.forStmt r.1) with
    | none => (.error .invalidInsertionPoint, b, r.2)
    | some l =>
      -- return stmt;
      (.ok r.1, b, { r.2 with statements := store r.2.statements block l })

end MLFuncBuilder

/-- Every table of the second context starts with the table of the first. -/
def MLIRContext.le (c1 c2 : MLIRContext) : Prop :=
  c1.types <+: c2.types ∧ c1.attributes <+: c2.attributes ∧ c1.affineExprs <+: c2.affineExprs ∧
    c1.affineMaps <+: c2.affineMaps ∧ c1.integerSets <+: c2.integerSets

/-! ## A concrete heap

A context that holds the type `f32` and the affine expressions `d0`, `1`, `0`
and `10`; a
graph function at address 0 whose only block, at address 1, holds one
operation, at address 2; a tree body at address 3 that holds one operation
statement, at address 4. -/

namespace Example

/-- The context of the example. -/
def context : MLIRContext :=
  { types := [.f32], attributes := [], affineExprs := [.dim 0, .constant 1, .constant 0, .constant 10], affineMaps := [],
    integerSets := [] }

/-- The heap of the example. -/
def heap : Heap :=
  { context := context
    nextAddr := 5
    blocks := fun function => if function = 0 then [1] else []
    operations := fun block => if block = 1 then [⟨2, 0, [], [0], []⟩] else []
    statements := fun block => if block = 3 then [.operationStmt ⟨4, 0, [], [0], []⟩] else [] }

/-- A graph builder positioned in block 1 in front of the operation at 2. -/
def cfgBuilder : CFGFuncBuilder := ⟨0, some 1, .atNode 2⟩

/-- A tree builder positioned in the body at 3 in front of the statement at 4. -/
def mlBuilder : MLFuncBuilder := ⟨some 3, .atNode 4⟩

/-- A description whose operands are graph values. -/
def cfgState (name : Identifier) : OperationState := ⟨name, [.cfg ⟨2⟩, .cfg ⟨2⟩], [0], [(1, 0)]⟩

/-- A description whose operands are tree values. -/
def mlState (name : Identifier) : OperationState := ⟨name, [.ml ⟨4⟩], [0], []⟩

/-- A description with a graph operand followed by a tree operand. -/
def mixedState : OperationState := ⟨9, [.cfg ⟨2⟩, .ml ⟨4⟩], [0], []⟩

/-- A layout test: more layout maps than dimensions. -/
def incompatible (shape : List Int) (maps : List AffineMapRef) : Bool :=
  decide (shape.length < maps.length)

end Example

/-! ## Lemmas on intrusive lists -/

namespace ilist

theorem front_append_back {α : Type} (addrOf : α → Nat) (l : List α) (it : Iterator) :
    front addrOf l it ++ back addrOf l it = l := by
  cases it with
  | atEnd => simp [front, back]
  | atNode a => simp [front, back, List.takeWhile_append_dropWhile]

theorem insert_of_split {α : Type} (addrOf : α → Nat) (a : Nat) (new x : α) (pre post : List α)
    (hpre : ∀ y ∈ pre, addrOf y ≠ a) (hx : addrOf x = a) :
    insert addrOf (pre ++ x :: post) (.atNode a) new = some (pre ++ new :: x :: post) := by
  induction pre with
  | nil => simp [insert, hx]
  | cons y ys ih =>
    have hy : addrOf y ≠ a := hpre y (List.mem_cons_self _ _)
    have hys : ∀ z ∈ ys, addrOf z ≠ a := fun z hz => hpre z (List.mem_cons_of_mem _ hz)
    simp [insert, hy, ih hys]

theorem split_of_valid {α : Type} (addrOf : α → Nat) (a : Nat) (l : List α)
    (hv : a ∈ l.map addrOf) :
    ∃ x post, back addrOf l (.atNode a) = x :: post ∧ addrOf x = a := by
  induction l with
  | nil => simp at hv
  | cons y ys ih =>
    by_cases hy : addrOf y = a
    · exact ⟨y, ys, by simp [back, List.dropWhile_cons, hy], hy⟩
    · have hv2 : a ∈ ys.map addrOf := by
        simp only [List.map_cons, List.mem_cons] at hv
        rcases hv with hv | hv
        · exact absurd hv.symm hy
        · exact hv
      obtain ⟨x, post, hb, hx⟩ := ih hv2
      refine ⟨x, post, ?_, hx⟩
      have hyb : (addrOf y != a) = true := by simpa using hy
      simpa [back, List.dropWhile_cons, hyb] using hb

theorem front_ne {α : Type} (addrOf : α → Nat) (a : Nat) (l : List α) :
    ∀ y ∈ front addrOf l (.atNode a), addrOf y ≠ a := by
  intro y hy
  have h := List.mem_takeWhile_imp hy
  simpa using h

/-- Linking a node in front of a valid iterator puts it between the nodes in
front of the iterator and the nodes from the iterator on. -/
theorem insert_of_valid {α : Type} (addrOf : α → Nat) (l : List α) (it : Iterator) (new : α)
    (hv : valid addrOf l it) :
    insert addrOf l it new = some (front addrOf l it ++ new :: back addrOf l it) := by
  cases it with
  | atEnd => cases l <;> simp [insert, front, back]
  | atNode a =>
    obtain ⟨x, post, hb, hx⟩ := split_of_valid addrOf a l hv
    have hl := front_append_back addrOf l (.atNode a)
    rw [hb] at hl
    conv_lhs => rw [← hl]
    rw [insert_of_split addrOf a new x _ post (front_ne addrOf a l) hx, hb]

/-- After a node with another address has been linked in front of the
iterator, the iterator is still valid, the new node is the last one in front
of it, and the nodes from the iterator on are the same. -/
theorem after_insert {α : Type} (addrOf : α → Nat) (l : List α) (it : Iterator) (new : α)
    (hv : valid addrOf l it) (hnew : ∀ a, it = .atNode a → addrOf new ≠ a) :
    valid addrOf (front addrOf l it ++ new :: back addrOf l it) it ∧
    front addrOf (front addrOf l it ++ new :: back addrOf l it) it = front addrOf l it ++ [new] ∧
    back addrOf (front addrOf l it ++ new :: back addrOf l it) it = back addrOf l it := by
  cases it with
  | atEnd => simp [valid, front, back]
  | atNode a =>
    obtain ⟨x, post, hb, hx⟩ := split_of_valid addrOf a l hv
    have hn : addrOf new ≠ a := hnew a rfl
    have hf := front_ne addrOf a l
    have hall : ∀ y ∈ front addrOf l (.atNode a) ++ [new], (addrOf y != a) = true := by
      intro y hy
      rcases List.mem_append.1 hy with hy | hy
      · simpa using hf y hy
      · simp only [List.mem_singleton] at hy
        subst hy
        simpa using hn
    have hxb : (addrOf x != a) = false := by simp [hx]
    have hre : front addrOf l (.atNode a) ++ new :: back addrOf l (.atNode a)
        = (front addrOf l (.atNode a) ++ [new]) ++ x :: post := by
      rw [hb]; simp
    refine ⟨?_, ?_, ?_⟩
    · rw [hb]
      simp [valid, hx]
    · rw [hre]
      show List.takeWhile _ _ = _
      rw [List.takeWhile_append_of_pos hall]
      simp [List.takeWhile, hxb]
    · rw [hre]
      show List.dropWhile _ _ = _
      rw [List.dropWhile_append_of_pos hall, hb]
      simp [List.dropWhile, hxb]

end ilist

/-! ## Lemmas on the operand loops and on `createOperation` -/

theorem store_same {α : Type} (f : Nat → α) (addr : Nat) (value : α) :
    store f addr value addr = value := by
  simp [store]

theorem store_other {α : Type} (f : Nat → α) (addr other : Nat) (value : α) (hne : other ≠ addr) :
    store f addr value other = f other := by
  simp [store, hne]

theorem CFGFuncBuilder.castOperands_map (assertions : Bool) (operands : List CFGValue) :
    CFGFuncBuilder.castOperands assertions (operands.map SSAValue.cfg) = some operands := by
  induction operands with
  | nil => rfl
  | cons v vs ih => simp [CFGFuncBuilder.castOperands, castCFGValue, ih]

/-- With assertions compiled in, the operand loop of the graph builder aborts
when some operand is a tree value. -/
theorem CFGFuncBuilder.castOperands_ml (operands : List SSAValue)
    (hbad : ∃ value, SSAValue.ml value ∈ operands) :
    CFGFuncBuilder.castOperands true operands = none := by
  induction operands with
  | nil => simp at hbad
  | cons v vs ih =>
    cases v with
    | ml value => simp [CFGFuncBuilder.castOperands, castCFGValue]
    | cfg value =>
      have hvs : ∃ value, SSAValue.ml value ∈ vs := by
        obtain ⟨m, hm⟩ := hbad
        simp only [List.mem_cons] at hm
        rcases hm with hm | hm
        · cases hm
        · exact ⟨m, hm⟩
      simp [CFGFuncBuilder.castOperands, castCFGValue, ih hvs]

/-- With assertions compiled out, the operand loop of the graph builder hands
on every pointer as it is. -/
theorem CFGFuncBuilder.castOperands_unchecked (operands : List SSAValue) :
    CFGFuncBuilder.castOperands false operands =
      some (operands.map (fun elt => (⟨elt.addr⟩ : CFGValue))) := by
  induction operands with
  | nil => rfl
  | cons v vs ih => cases v <;> simp [CFGFuncBuilder.castOperands, castCFGValue, SSAValue.addr, ih]

theorem MLFuncBuilder.castMLOperands_map (assertions : Bool) (operands : List MLValue) :
    MLFuncBuilder.castOperands assertions (operands.map SSAValue.ml) = some operands := by
  induction operands with
  | nil => rfl
  | cons v vs ih => simp [MLFuncBuilder.castOperands, castMLValue, ih]

/-- With assertions compiled in, the operand loop of the tree builder aborts
when some operand is a graph value. -/
theorem MLFuncBuilder.castOperands_cfg (operands : List SSAValue)
    (hbad : ∃ value, SSAValue.cfg value ∈ operands) :
    MLFuncBuilder.castOperands true operands = none := by
  induction operands with
  | nil => simp at hbad
  | cons v vs ih =>
    cases v with
    | cfg value => simp [MLFuncBuilder.castOperands, castMLValue]
    | ml value =>
      have hvs : ∃ value, SSAValue.cfg value ∈ vs := by
        obtain ⟨m, hm⟩ := hbad
        simp only [List.mem_cons] at hm
        rcases hm with hm | hm
        · cases hm
        · exact ⟨m, hm⟩
      simp [MLFuncBuilder.castOperands, castMLValue, ih hvs]

/-- With assertions compiled out, the operand loop of the tree builder hands
on every pointer as it is. -/
theorem MLFuncBuilder.castMLOperands_unchecked (operands : List SSAValue) :
    MLFuncBuilder.castOperands false operands =
      some (operands.map (fun elt => (⟨elt.addr⟩ : MLValue))) := by
  induction operands with
  | nil => rfl
  | cons v vs ih => cases v <;> simp [MLFuncBuilder.castOperands, castMLValue, SSAValue.addr, ih]

/-- The node and the heap that `CFGFuncBuilder::createOperation` leaves when
the operand loop has answered `operands`, in closed form. -/
theorem CFGFuncBuilder.createOperation_eq_of_cast (b : CFGFuncBuilder) (assertions : Bool)
    (h : Heap) (state : OperationState) (operands : List CFGValue) (block : Nat)
    (hcast : CFGFuncBuilder.castOperands assertions state.operands = some operands)
    (hb : b.block = some block)
    (hv : ilist.valid OperationInst.addr (h.operations block) b.insertPoint) :
    b.createOperation assertions h state =
      (.ok ⟨h.nextAddr, state.name, operands, state.types, state.attributes⟩, b,
        { h with
          nextAddr := h.nextAddr + 1
          operations := store h.operations block
            (ilist.front OperationInst.addr (h.operations block) b.insertPoint ++
              ⟨h.nextAddr, state.name, operands, state.types, state.attributes⟩ ::
              ilist.back OperationInst.addr (h.operations block) b.insertPoint) }) := by
  simp only [CFGFuncBuilder.createOperation, hcast, hb,
    OperationInst.create, ilist.insert_of_valid OperationInst.addr _ _ _ hv]

/-- The node and the heap that a `CFGFuncBuilder::createOperation` on graph
operands leaves, in closed form. -/
theorem CFGFuncBuilder.createOperation_eq (b : CFGFuncBuilder) (assertions : Bool) (h : Heap)
    (state : OperationState) (operands : List CFGValue) (block : Nat)
    (hops : state.operands = operands.map SSAValue.cfg) (hb : b.block = some block)
    (hv : ilist.valid OperationInst.addr (h.operations block) b.insertPoint) :
    b.createOperation assertions h state =
      (.ok ⟨h.nextAddr, state.name, operands, state.types, state.attributes⟩, b,
        { h with
          nextAddr := h.nextAddr + 1
          operations := store h.operations block
            (ilist.front OperationInst.addr (h.operations block) b.insertPoint ++
              ⟨h.nextAddr, state.name, operands, state.types, state.attributes⟩ ::
              ilist.back OperationInst.addr (h.operations block) b.insertPoint) }) :=
  CFGFuncBuilder.createOperation_eq_of_cast b assertions h state operands block
    (by rw [hops]; exact CFGFuncBuilder.castOperands_map assertions operands) hb hv

/-- The node and the heap that `MLFuncBuilder::createOperation` leaves when
the operand loop has answered `operands`, in closed form. -/
theorem MLFuncBuilder.createOperationStmt_eq_of_cast (b : MLFuncBuilder) (assertions : Bool)
    (h : Heap) (state : OperationState) (operands : List MLValue) (block : Nat)
    (hcast : MLFuncBuilder.castOperands assertions state.operands = some operands)
    (hb : b.block = some block)
    (hv : ilist.valid Statement.addr (h.statements block) b.insertPoint) :
    b.createOperation assertions h state =
      (.ok ⟨h.nextAddr, state.name, operands, state.types, state.attributes⟩, b,
        { h with
          nextAddr := h.nextAddr + 1
          statements := store h.statements block
            (ilist.front Statement.addr (h.statements block) b.insertPoint ++
              .operationStmt ⟨h.nextAddr, state.name, operands, state.types, state.attributes⟩ ::
              ilist.back Statement.addr (h.statements block) b.insertPoint) }) := by
  simp only [MLFuncBuilder.createOperation, hcast, hb,
    OperationStmt.create, ilist.insert_of_valid Statement.addr _ _ _ hv]

/-- The node and the heap that a `MLFuncBuilder::createOperation` on tree
operands leaves, in closed form. -/
theorem MLFuncBuilder.createOperationStmt_eq (b : MLFuncBuilder) (assertions : Bool) (h : Heap)
    (state : OperationState) (operands : List MLValue) (block : Nat)
    (hops : state.operands = operands.map SSAValue.ml) (hb : b.block = some block)
    (hv : ilist.valid Statement.addr (h.statements block) b.insertPoint) :
    b.createOperation assertions h state =
      (.ok ⟨h.nextAddr, state.name, operands, state.types, state.attributes⟩, b,
        { h with
          nextAddr := h.nextAddr + 1
          statements := store h.statements block
            (ilist.front Statement.addr (h.statements block) b.insertPoint ++
              .operationStmt ⟨h.nextAddr, state.name, operands, state.types, state.attributes⟩ ::
              ilist.back Statement.addr (h.statements block) b.insertPoint) }) :=
  MLFuncBuilder.createOperationStmt_eq_of_cast b assertions h state operands block
    (by rw [hops]; exact MLFuncBuilder.castMLOperands_map assertions operands) hb hv

/-- An iterator that is valid in a list whose nodes were all allocated
designates an allocated node. -/
theorem ilist.valid_lt {α : Type} (addrOf : α → Nat) (l : List α) (it : Iterator) (next : Nat)
    (hv : ilist.valid addrOf l it) (halloc : ∀ x ∈ l, addrOf x < next) :
    ∀ a, it = .atNode a → a < next := by
  intro a ha
  subst ha
  simp only [ilist.valid, List.mem_map] at hv
  obtain ⟨x, hx, hxa⟩ := hv
  have := halloc x hx
  omega

/-- One successful `CFGFuncBuilder::createOperation`: the node, and what the
heap it leaves holds, the insertion point having been allocated before. -/
theorem CFGFuncBuilder.createOperation_step (b : CFGFuncBuilder) (assertions : Bool) (h : Heap)
    (state : OperationState) (operands : List CFGValue) (block : Nat)
    (hops : state.operands = operands.map SSAValue.cfg) (hb : b.block = some block)
    (hv : ilist.valid OperationInst.addr (h.operations block) b.insertPoint)
    (hlt : ∀ a, b.insertPoint = .atNode a → a < h.nextAddr) :
    ∃ h1 : Heap,
      b.createOperation assertions h state =
        (.ok ⟨h.nextAddr, state.name, operands, state.types, state.attributes⟩, b, h1) ∧
      h1.nextAddr = h.nextAddr + 1 ∧
      h1.operations block =
        ilist.front OperationInst.addr (h.operations block) b.insertPoint ++
          ⟨h.nextAddr, state.name, operands, state.types, state.attributes⟩ ::
          ilist.back OperationInst.addr (h.operations block) b.insertPoint ∧
      ilist.valid OperationInst.addr (h1.operations block) b.insertPoint ∧
      ilist.front OperationInst.addr (h1.operations block) b.insertPoint =
        ilist.front OperationInst.addr (h.operations block) b.insertPoint ++
          [⟨h.nextAddr, state.name, operands, state.types, state.attributes⟩] ∧
      ilist.back OperationInst.addr (h1.operations block) b.insertPoint =
        ilist.back OperationInst.addr (h.operations block) b.insertPoint ∧
      (∀ other, other ≠ block → h1.operations other = h.operations other) ∧
      h1.blocks = h.blocks ∧ h1.statements = h.statements ∧ h1.context = h.context := by
  obtain ⟨v1, f1, k1⟩ := ilist.after_insert OperationInst.addr (h.operations block) b.insertPoint
    ⟨h.nextAddr, state.name, operands, state.types, state.attributes⟩ hv
    (by intro a ha; have := hlt a ha; show h.nextAddr ≠ a; omega)
  refine ⟨_, CFGFuncBuilder.createOperation_eq b assertions h state operands block hops hb hv, rfl, ?_, ?_,
    ?_, ?_, ?_, rfl, rfl, rfl⟩
  · simp only [store_same]
  · simp only [store_same]; exact v1
  · simp only [store_same]; exact f1
  · simp only [store_same]; exact k1
  · intro other hne
    simp only [store_other _ _ _ _ hne]

/-- One successful `MLFuncBuilder::createOperation`: the node, and what the
heap it leaves holds, the insertion point having been allocated before. -/
theorem MLFuncBuilder.createOperationStmt_step (b : MLFuncBuilder) (assertions : Bool) (h : Heap)
    (state : OperationState) (operands : List MLValue) (block : Nat)
    (hops : state.operands = operands.map SSAValue.ml) (hb : b.block = some block)
    (hv : ilist.valid Statement.addr (h.statements block) b.insertPoint)
    (hlt : ∀ a, b.insertPoint = .atNode a → a < h.nextAddr) :
    ∃ h1 : Heap,
      b.createOperation assertions h state =
        (.ok ⟨h.nextAddr, state.name, operands, state.types, state.attributes⟩, b, h1) ∧
      h1.nextAddr = h.nextAddr + 1 ∧
      h1.statements block =
        ilist.front Statement.addr (h.statements block) b.insertPoint ++
          .operationStmt ⟨h.nextAddr, state.name, operands, state.types, state.attributes⟩ ::
          ilist.back Statement.addr (h.statements block) b.insertPoint ∧
      ilist.valid Statement.addr (h1.statements block) b.insertPoint ∧
      ilist.front Statement.addr (h1.statements block) b.insertPoint =
        ilist.front Statement.addr (h.statements block) b.insertPoint ++
          [.operationStmt ⟨h.nextAddr, state.name, operands, state.types, state.attributes⟩] ∧
      ilist.back Statement.addr (h1.statements block) b.insertPoint =
        ilist.back Statement.addr (h.statements block) b.insertPoint ∧
      (∀ other, other ≠ block → h1.statements other = h.statements other) ∧
      h1.blocks = h.blocks ∧ h1.operations = h.operations ∧ h1.context = h.context := by
  obtain ⟨v1, f1, k1⟩ := ilist.after_insert Statement.addr (h.statements block) b.insertPoint
    (.operationStmt ⟨h.nextAddr, state.name, operands, state.types, state.attributes⟩) hv
    (by intro a ha; have := hlt a ha; show h.nextAddr ≠ a; omega)
  refine ⟨_, MLFuncBuilder.createOperationStmt_eq b assertions h state operands block hops hb hv, rfl, ?_, ?_,
    ?_, ?_, ?_, rfl, rfl, rfl⟩
  · simp only [store_same]
  · simp only [store_same]; exact v1
  · simp only [store_same]; exact f1
  · simp only [store_same]; exact k1
  · intro other hne
    simp only [store_other _ _ _ _ hne]

/-- The loop and the heap that a successful `MLFuncBuilder::createFor` leaves,
in closed form. -/
theorem MLFuncBuilder.createFor_eq (b : MLFuncBuilder) (h : Heap)
    (lowerBound upperBound : AffineExprRef) (step : Option AffineExprRef) (block : Nat)
    (hb : b.block = some block) (hne : block ≠ h.nextAddr)
    (hv : ilist.valid Statement.addr (h.statements block) b.insertPoint) :
    b.createFor h lowerBound upperBound step =
      (.ok ⟨h.nextAddr, lowerBound, upperBound,
          step.getD (Builder.getConstantExpr 1 h.context).1⟩, b,
        { context := (match step with
            | some _ => h.context
            | none => (Builder.getConstantExpr 1 h.context).2)
          nextAddr := h.nextAddr + 1
          blocks := h.blocks
          operations := h.operations
          statements := store (store h.statements h.nextAddr []) block
            (ilist.front Statement.addr (h.statements block) b.insertPoint ++
              .forStmt ⟨h.nextAddr, lowerBound, upperBound,
                step.getD (Builder.getConstantExpr 1 h.context).1⟩ ::
              ilist.back Statement.addr (h.statements block) b.insertPoint) }) := by
  have hins := ilist.insert_of_valid Statement.addr (h.statements block) b.insertPoint
    (.forStmt ⟨h.nextAddr, lowerBound, upperBound,
      step.getD (Builder.getConstantExpr 1 h.context).1⟩) hv
  cases step with
  | some st =>
    simp only [Option.getD_some] at hins ⊢
    simp only [MLFuncBuilder.createFor, ForStmt.new, hb, store_other _ _ _ _ hne, hins]
  | none =>
    simp only [Option.getD_none] at hins ⊢
    simp only [MLFuncBuilder.createFor, ForStmt.new, hb, store_other _ _ _ _ hne, hins]

/-- One successful `MLFuncBuilder::createFor`: the loop, and what the heap it
leaves holds, the block and the insertion point having been allocated
before. -/
theorem MLFuncBuilder.createFor_step (b : MLFuncBuilder) (h : Heap)
    (lowerBound upperBound : AffineExprRef) (step : Option AffineExprRef) (block : Nat)
    (hb : b.block = some block) (hblock : block < h.nextAddr)
    (hv : ilist.valid Statement.addr (h.statements block) b.insertPoint)
    (hlt : ∀ a, b.insertPoint = .atNode a → a < h.nextAddr) :
    ∃ h1 : Heap,
      b.createFor h lowerBound upperBound step =
        (.ok ⟨h.nextAddr, lowerBound, upperBound,
          step.getD (Builder.getConstantExpr 1 h.context).1⟩, b, h1) ∧
      h1.nextAddr = h.nextAddr + 1 ∧
      h1.statements block =
        ilist.front Statement.addr (h.statements block) b.insertPoint ++
          .forStmt ⟨h.nextAddr, lowerBound, upperBound,
            step.getD (Builder.getConstantExpr 1 h.context).1⟩ ::
          ilist.back Statement.addr (h.statements block) b.insertPoint ∧
      h1.statements h.nextAddr = [] ∧
      ilist.valid Statement.addr (h1.statements block) b.insertPoint ∧
      ilist.front Statement.addr (h1.statements block) b.insertPoint =
        ilist.front Statement.addr (h.statements block) b.insertPoint ++
          [.forStmt ⟨h.nextAddr, lowerBound, upperBound,
            step.getD (Builder.getConstantExpr 1 h.context).1⟩] ∧
      ilist.back Statement.addr (h1.statements block) b.insertPoint =
        ilist.back Statement.addr (h.statements block) b.insertPoint ∧
      (∀ other, other ≠ block → other ≠ h.nextAddr → h1.statements other = h.statements other) ∧
      h1.context = (match step with
        | some _ => h.context
        | none => (Builder.getConstantExpr 1 h.context).2) := by
  have hne : block ≠ h.nextAddr := by omega
  obtain ⟨v1, f1, k1⟩ := ilist.after_insert Statement.addr (h.statements block) b.insertPoint
    (.forStmt ⟨h.nextAddr, lowerBound, upperBound,
      step.getD (Builder.getConstantExpr 1 h.context).1⟩) hv
    (by intro a ha; have := hlt a ha; show h.nextAddr ≠ a; omega)
  refine ⟨_, MLFuncBuilder.createFor_eq b h lowerBound upperBound step block hb hne hv,
    rfl, ?_, ?_, ?_, ?_, ?_, ?_, rfl⟩
  · simp only [store_same]
  · simp only [store_other _ _ _ _ hne.symm, store_same]
  · simp only [store_same]; exact v1
  · simp only [store_same]; exact f1
  · simp only [store_same]; exact k1
  · intro other h1 h2
    simp only [store_other _ _ _ _ h1, store_other _ _ _ _ h2]

/-- Uniquing a key leaves it in the table at the index that is returned. -/
theorem intern_lookup {κ : Type} [DecidableEq κ] (table : List κ) (key : κ) :
    (intern table key).2.get? (intern table key).1 = some key := by
  unfold intern
  split_ifs with hmem
  · exact List.indexOf_get? hmem
  · simp

/-! ## Lemmas on uniquing -/

theorem intern_mem {κ : Type} [DecidableEq κ] (table : List κ) (key : κ) :
    key ∈ (intern table key).2 := by
  unfold intern
  split_ifs with hmem
  · exact hmem
  · simp

theorem intern_grows {κ : Type} [DecidableEq κ] (table : List κ) (key : κ) :
    table <+: (intern table key).2 := by
  unfold intern
  split_ifs with hmem
  · exact List.prefix_refl _
  · exact List.prefix_append _ _

theorem intern_fst {κ : Type} [DecidableEq κ] (table : List κ) (key : κ) :
    (intern table key).1 = List.indexOf key (intern table key).2 := by
  unfold intern
  split_ifs with hmem
  · rfl
  · simp [List.indexOf_append_of_not_mem hmem]

/-- Two uniquing requests on one growing table are answered with the same
index exactly when the keys are equal. -/
theorem intern_unique {κ : Type} [DecidableEq κ] (table later : List κ) (key1 key2 : κ)
    (hgrow : (intern table key1).2 <+: later) :
    (intern table key1).1 = (intern later key2).1 ↔ key1 = key2 := by
  obtain ⟨ext, hext⟩ := hgrow
  have hmem1 := intern_mem table key1
  have hmem : key1 ∈ later := by rw [← hext]; exact List.mem_append_left _ hmem1
  have h1 : (intern table key1).1 = List.indexOf key1 later := by
    rw [intern_fst, ← hext, List.indexOf_append_of_mem hmem1]
  rw [h1]
  by_cases hmem2 : key2 ∈ later
  · have h2 : (intern later key2).1 = List.indexOf key2 later := by simp [intern, hmem2]
    rw [h2]
    exact List.indexOf_inj hmem hmem2
  · have h2 : (intern later key2).1 = later.length := by simp [intern, hmem2]
    rw [h2]
    have hlt := List.indexOf_lt_length.2 hmem
    constructor
    · intro heq; omega
    · intro heq; subst heq; exact absurd hmem hmem2

theorem MLIRContext.le_refl (c : MLIRContext) : c.le c :=
  ⟨List.prefix_refl _, List.prefix_refl _, List.prefix_refl _, List.prefix_refl _,
    List.prefix_refl _⟩

theorem MLIRContext.le_trans {c1 c2 c3 : MLIRContext} (h12 : c1.le c2) (h23 : c2.le c3) :
    c1.le c3 :=
  ⟨h12.1.trans h23.1, h12.2.1.trans h23.2.1, h12.2.2.1.trans h23.2.2.1,
    h12.2.2.2.1.trans h23.2.2.2.1, h12.2.2.2.2.trans h23.2.2.2.2⟩

theorem MLIRContext.internKey_le (c : MLIRContext) (key : Key) : c.le (c.internKey key).2 := by
  cases key <;>
    simp only [MLIRContext.internKey, MLIRContext.internType, MLIRContext.internAttribute,
      MLIRContext.internAffineExpr, MLIRContext.internAffineMap, MLIRContext.internIntegerSet,
      MLIRContext.le, List.prefix_refl, intern_grows, and_self]

/-- Two uniquing requests on one growing context are answered with the same
reference exactly when the keys are equal. -/
theorem MLIRContext.internKey_unique (c later : MLIRContext) (key1 key2 : Key)
    (hgrow : (c.internKey key1).2.le later) :
    (c.internKey key1).1 = (later.internKey key2).1 ↔ key1 = key2 := by
  obtain ⟨ht, ha, he, hm, hs⟩ := hgrow
  cases key1 <;> cases key2 <;>
    simp only [MLIRContext.internKey, MLIRContext.internType, MLIRContext.internAttribute,
      MLIRContext.internAffineExpr, MLIRContext.internAffineMap, MLIRContext.internIntegerSet,
      ValueRef.type.injEq, ValueRef.attribute.injEq, ValueRef.affineExpr.injEq,
      ValueRef.affineMap.injEq, ValueRef.integerSet.injEq, Key.type.injEq, Key.attribute.injEq,
      Key.affineExpr.injEq, Key.affineMap.injEq, Key.integerSet.injEq, reduceCtorEq] at *
  · exact intern_unique _ _ _ _ ht
  · exact intern_unique _ _ _ _ ha
  · exact intern_unique _ _ _ _ he
  · exact intern_unique _ _ _ _ hm
  · exact intern_unique _ _ _ _ hs

theorem FactoryCall.ofKey_key (call : FactoryCall) : FactoryCall.ofKey call.key = call := by
  cases call <;> rfl

theorem FactoryCall.key_inj {call1 call2 : FactoryCall} (hkey : call1.key = call2.key) :
    call1 = call2 := by
  rw [← FactoryCall.ofKey_key call1, ← FactoryCall.ofKey_key call2, hkey]

/-- A factory call either is rejected, leaving the context as it was, or is
the uniquing of its key. -/
theorem FactoryCall.run_eq (incompatible : List Int → List AffineMapRef → Bool)
    (call : FactoryCall) (c : MLIRContext) :
    call.run incompatible c =
      if call.malformed incompatible then (.error .malformedValue, c)
      else (.ok (c.internKey call.key).1, (c.internKey call.key).2) := by
  cases call <;> try rfl
  case getMemRefType shape elementType maps memorySpace =>
    simp only [FactoryCall.run, Builder.getMemRefType, MemRefType.get, FactoryCall.malformed]
    split_ifs <;> rfl

theorem FactoryCall.run_le (incompatible : List Int → List AffineMapRef → Bool)
    (call : FactoryCall) (c : MLIRContext) : c.le (call.run incompatible c).2 := by
  rw [FactoryCall.run_eq]
  split_ifs
  · exact MLIRContext.le_refl c
  · exact MLIRContext.internKey_le c _

theorem FactoryCall.runAll_le (incompatible : List Int → List AffineMapRef → Bool)
    (calls : List FactoryCall) (c : MLIRContext) :
    c.le (FactoryCall.runAll incompatible calls c) := by
  induction calls generalizing c with
  | nil => exact MLIRContext.le_refl c
  | cons call rest ih =>
    exact MLIRContext.le_trans (FactoryCall.run_le incompatible call c) (ih _)

/-! ## Theorems -/

/-- C1. Insertion order preservation: with the graph builder positioned in a
block (its iterator valid there, the nodes of the block allocated), three
successive `createOperation` calls for the descriptions sA, sB, sC, all of
whose operands are graph values, succeed with nodes A, B, C that carry those
descriptions, and the operation sequence of the block is then the nodes in
front of the insertion point, followed by A, B, C in that order, followed by
the nodes from the insertion point on; a block that was empty holds exactly
A, B, C. -/
theorem createOperation_preserves_insertion_order (b : CFGFuncBuilder) (assertions : Bool)
    (h : Heap) (block : Nat)
    (sA sB sC : OperationState) (oA oB oC : List CFGValue)
    (hb : b.block = some block)
    (hv : ilist.valid OperationInst.addr (h.operations block) b.insertPoint)
    (halloc : ∀ x ∈ h.operations block, x.addr < h.nextAddr)
    (hA : sA.operands = oA.map SSAValue.cfg) (hB : sB.operands = oB.map SSAValue.cfg)
    (hC : sC.operands = oC.map SSAValue.cfg) :
    ∃ (A B C : OperationInst) (h1 h2 h3 : Heap),
      b.createOperation assertions h sA = (.ok A, b, h1) ∧
      b.createOperation assertions h1 sB = (.ok B, b, h2) ∧
      b.createOperation assertions h2 sC = (.ok C, b, h3) ∧
      (A.name = sA.name ∧ A.operands = oA ∧ A.types = sA.types ∧ A.attributes = sA.attributes) ∧
      (B.name = sB.name ∧ B.operands = oB ∧ B.types = sB.types ∧ B.attributes = sB.attributes) ∧
      (C.name = sC.name ∧ C.operands = oC ∧ C.types = sC.types ∧ C.attributes = sC.attributes) ∧
      (A.addr ≠ B.addr ∧ A.addr ≠ C.addr ∧ B.addr ≠ C.addr) ∧
      h.operations block =
        ilist.front OperationInst.addr (h.operations block) b.insertPoint ++
          ilist.back OperationInst.addr (h.operations block) b.insertPoint ∧
      h3.operations block =
        ilist.front OperationInst.addr (h.operations block) b.insertPoint ++ [A, B, C] ++
          ilist.back OperationInst.addr (h.operations block) b.insertPoint ∧
      (h.operations block = [] → h3.operations block = [A, B, C]) := by
  have hlt := ilist.valid_lt OperationInst.addr _ _ _ hv halloc
  obtain ⟨h1, e1, n1, l1, v1, f1, k1, -⟩ :=
    CFGFuncBuilder.createOperation_step b assertions h sA oA block hA hb hv hlt
  obtain ⟨h2, e2, n2, l2, v2, f2, k2, -⟩ :=
    CFGFuncBuilder.createOperation_step b assertions h1 sB oB block hB hb v1
      (by intro a ha; have := hlt a ha; omega)
  obtain ⟨h3, e3, n3, l3, -⟩ :=
    CFGFuncBuilder.createOperation_step b assertions h2 sC oC block hC hb v2
      (by intro a ha; have := hlt a ha; omega)
  rw [f2, k2, f1, k1] at l3
  refine ⟨_, _, _, h1, h2, h3, e1, e2, e3, ⟨rfl, rfl, rfl, rfl⟩, ⟨rfl, rfl, rfl, rfl⟩,
    ⟨rfl, rfl, rfl, rfl⟩, ?_, (ilist.front_append_back _ _ _).symm, ?_, ?_⟩
  · refine ⟨?_, ?_, ?_⟩ <;> simp only [ne_eq] <;> omega
  · rw [l3]; simp
  · intro hnil
    have hf : ilist.front OperationInst.addr [] b.insertPoint = [] := by
      cases hi : b.insertPoint <;> simp [ilist.front]
    have hk : ilist.back OperationInst.addr [] b.insertPoint = [] := by
      cases hi : b.insertPoint <;> simp [ilist.back]
    rw [l3, hnil, hf, hk]; simp

/-- C2. For a description whose operands are all graph values, given to the
graph builder, and a description whose operands are all tree values, given to
the tree builder (each builder positioned in a block whose nodes were
allocated, at a valid iterator), `createOperation` returns a node that is not
in the block yet and carries the name, the operands in the same number and
order, the result types and the attributes of the description; the sequence of
the block afterwards is the old sequence, split at the insertion point, with
that one node in between, and no other block is touched. -/
theorem createOperation_links_described_node (assertions : Bool) (h : Heap)
    (cb : CFGFuncBuilder) (cblock : Nat) (cstate : OperationState) (coperands : List CFGValue)
    (mb : MLFuncBuilder) (mblock : Nat) (mstate : OperationState) (moperands : List MLValue)
    (hcops : cstate.operands = coperands.map SSAValue.cfg) (hcb : cb.block = some cblock)
    (hcv : ilist.valid OperationInst.addr (h.operations cblock) cb.insertPoint)
    (hcalloc : ∀ x ∈ h.operations cblock, x.addr < h.nextAddr)
    (hmops : mstate.operands = moperands.map SSAValue.ml) (hmb : mb.block = some mblock)
    (hmv : ilist.valid Statement.addr (h.statements mblock) mb.insertPoint)
    (hmalloc : ∀ x ∈ h.statements mblock, x.addr < h.nextAddr) :
    (∃ (op : OperationInst) (h1 : Heap),
      cb.createOperation assertions h cstate = (.ok op, cb, h1) ∧
      op.name = cstate.name ∧ op.operands.map SSAValue.cfg = cstate.operands ∧
      op.operands.length = cstate.operands.length ∧
      op.types = cstate.types ∧ op.attributes = cstate.attributes ∧
      op ∉ h.operations cblock ∧
      h.operations cblock =
        ilist.front OperationInst.addr (h.operations cblock) cb.insertPoint ++
          ilist.back OperationInst.addr (h.operations cblock) cb.insertPoint ∧
      h1.operations cblock =
        ilist.front OperationInst.addr (h.operations cblock) cb.insertPoint ++ op ::
          ilist.back OperationInst.addr (h.operations cblock) cb.insertPoint ∧
      (∀ a, cb.insertPoint = .atNode a → ∃ x rest,
        ilist.back OperationInst.addr (h.operations cblock) cb.insertPoint = x :: rest ∧
          x.addr = a) ∧
      (cb.insertPoint = .atEnd →
        ilist.back OperationInst.addr (h.operations cblock) cb.insertPoint = []) ∧
      (∀ other, other ≠ cblock → h1.operations other = h.operations other) ∧
      h1.blocks = h.blocks) ∧
    (∃ (op : OperationStmt) (h1 : Heap),
      mb.createOperation assertions h mstate = (.ok op, mb, h1) ∧
      op.name = mstate.name ∧ op.operands.map SSAValue.ml = mstate.operands ∧
      op.operands.length = mstate.operands.length ∧
      op.types = mstate.types ∧ op.attributes = mstate.attributes ∧
      Statement.operationStmt op ∉ h.statements mblock ∧
      h.statements mblock =
        ilist.front Statement.addr (h.statements mblock) mb.insertPoint ++
          ilist.back Statement.addr (h.statements mblock) mb.insertPoint ∧
      h1.statements mblock =
        ilist.front Statement.addr (h.statements mblock) mb.insertPoint ++
          Statement.operationStmt op ::
          ilist.back Statement.addr (h.statements mblock) mb.insertPoint ∧
      (∀ a, mb.insertPoint = .atNode a → ∃ x rest,
        ilist.back Statement.addr (h.statements mblock) mb.insertPoint = x :: rest ∧
          x.addr = a) ∧
      (mb.insertPoint = .atEnd →
        ilist.back Statement.addr (h.statements mblock) mb.insertPoint = []) ∧
      (∀ other, other ≠ mblock → h1.statements other = h.statements other)) := by
  constructor
  · obtain ⟨h1, e1, -, l1, -, -, -, o1, b1, -⟩ :=
      CFGFuncBuilder.createOperation_step cb assertions h cstate coperands cblock hcops hcb hcv
        (ilist.valid_lt OperationInst.addr _ _ _ hcv hcalloc)
    refine ⟨_, h1, e1, rfl, hcops.symm, ?_, rfl, rfl, ?_,
      (ilist.front_append_back _ _ _).symm, l1, ?_, ?_, o1, b1⟩
    · simp [hcops]
    · intro hmem
      have := hcalloc _ hmem
      simp at this
    · intro a ha
      rw [ha] at hcv ⊢
      exact ilist.split_of_valid OperationInst.addr a _ hcv
    · intro ha
      rw [ha]
      rfl
  · obtain ⟨h1, e1, -, l1, -, -, -, o1, -⟩ :=
      MLFuncBuilder.createOperationStmt_step mb assertions h mstate moperands mblock hmops hmb hmv
        (ilist.valid_lt Statement.addr _ _ _ hmv hmalloc)
    refine ⟨_, h1, e1, rfl, hmops.symm, ?_, rfl, rfl, ?_,
      (ilist.front_append_back _ _ _).symm, l1, ?_, ?_, o1⟩
    · simp [hmops]
    · intro hmem
      have := hmalloc _ hmem
      simp [Statement.addr] at this
    · intro a ha
      rw [ha] at hmv ⊢
      exact ilist.split_of_valid Statement.addr a _ hmv
    · intro ha
      rw [ha]
      rfl

/-- C3, amended. `MLFuncBuilder::createOperation` has no error return. For a
description in which some operand is a graph value: with the assertion of
`cast<MLValue>` compiled in, the process is aborted inside the operand loop,
before a node is created or linked, so the builder and the whole heap, hence
every statement sequence of the tree body, are as they were; with the
assertion compiled out the call is not rejected: positioned in a block at a
valid iterator, it returns a node that carries the name, the result types, the
attributes and, in order, the operand pointers of the description, and that
node is linked in the block in front of the insertion point. -/
theorem MLFuncBuilder_createOperation_cfg_operand_aborts_or_links (b : MLFuncBuilder) (h : Heap)
    (state : OperationState) (hbad : ∃ value, SSAValue.cfg value ∈ state.operands) :
    (b.createOperation true h state = (.error .aborted, b, h) ∧
      ∀ block, (b.createOperation true h state).2.2.statements block = h.statements block) ∧
    (∀ block, b.block = some block →
      ilist.valid Statement.addr (h.statements block) b.insertPoint →
      ∃ (op : OperationStmt) (h1 : Heap),
        b.createOperation false h state = (.ok op, b, h1) ∧
        op.name = state.name ∧
        op.operands = state.operands.map (fun elt => (⟨elt.addr⟩ : MLValue)) ∧
        op.types = state.types ∧ op.attributes = state.attributes ∧
        h1.statements block =
          ilist.front Statement.addr (h.statements block) b.insertPoint ++
            Statement.operationStmt op ::
            ilist.back Statement.addr (h.statements block) b.insertPoint) := by
  have e : b.createOperation true h state = (.error .aborted, b, h) := by
    simp only [MLFuncBuilder.createOperation, MLFuncBuilder.castOperands_cfg _ hbad]
  refine ⟨⟨e, fun block => by rw [e]⟩, ?_⟩
  intro block hb hv
  refine ⟨_, _, MLFuncBuilder.createOperationStmt_eq_of_cast b false h state _ block
    (MLFuncBuilder.castMLOperands_unchecked state.operands) hb hv, rfl, rfl, rfl, rfl, ?_⟩
  simp only [store_same]

/-- C4, amended. `CFGFuncBuilder::createOperation` has no failure return, and
it narrows every operand before it creates the node and creates the node
before it links it. For a description in which some operand, at whatever
index, is a tree value: with the assertion of `cast<CFGValue>` compiled in,
the process is aborted inside the operand loop before any mutation, so the
builder (its block and insertion point) and the heap (every operation
sequence, every block sequence, the allocator) are as they were and no node
was created; with the assertion compiled out the call is not rejected:
positioned in a block at a valid iterator, it returns a node that carries the
name, the result types, the attributes and, in order, the operand pointers of
the description, and that node is linked whole in the block in front of the
insertion point, the block sequences being as they were. -/
theorem CFGFuncBuilder_createOperation_ml_operand_aborts_or_links (b : CFGFuncBuilder) (h : Heap)
    (state : OperationState) (hbad : ∃ value, SSAValue.ml value ∈ state.operands) :
    (b.createOperation true h state = (.error .aborted, b, h) ∧
      (∀ block, (b.createOperation true h state).2.2.operations block = h.operations block) ∧
      (∀ function, (b.createOperation true h state).2.2.blocks function = h.blocks function) ∧
      (b.createOperation true h state).2.2.nextAddr = h.nextAddr ∧
      (b.createOperation true h state).2.1 = b) ∧
    (∀ block, b.block = some block →
      ilist.valid OperationInst.addr (h.operations block) b.insertPoint →
      ∃ (op : OperationInst) (h1 : Heap),
        b.createOperation false h state = (.ok op, b, h1) ∧
        op.name = state.name ∧
        op.operands = state.operands.map (fun elt => (⟨elt.addr⟩ : CFGValue)) ∧
        op.types = state.types ∧ op.attributes = state.attributes ∧
        h1.operations block =
          ilist.front OperationInst.addr (h.operations block) b.insertPoint ++ op ::
            ilist.back OperationInst.addr (h.operations block) b.insertPoint ∧
        h1.blocks = h.blocks) := by
  have e : b.createOperation true h state = (.error .aborted, b, h) := by
    simp only [CFGFuncBuilder.createOperation, CFGFuncBuilder.castOperands_ml _ hbad]
  refine ⟨⟨e, fun block => by rw [e], fun function => by rw [e], by rw [e], by rw [e]⟩, ?_⟩
  intro block hb hv
  refine ⟨_, _, CFGFuncBuilder.createOperation_eq_of_cast b false h state _ block
    (CFGFuncBuilder.castOperands_unchecked state.operands) hb hv, rfl, rfl, rfl, rfl, ?_, rfl⟩
  simp only [store_same]

/-- C5. Block creation side effect: `createBlock` returns a block that is not
among the blocks of the function (these having been allocated) and is empty;
the block sequence of the function afterwards is the old sequence followed by
that block, the operation sequences of all other blocks and the block
sequences of all other functions are as before, and the cursor is in the new
block, at its start. A `createOperation` that follows, for a description whose
operands are graph values, succeeds; the new block then holds exactly that
node and every other block holds what it held before `createBlock`. -/
theorem createBlock_appends_block_and_moves_cursor (b : CFGFuncBuilder) (assertions : Bool)
    (h : Heap)
    (state : OperationState) (operands : List CFGValue)
    (halloc : ∀ x ∈ h.blocks b.function, x < h.nextAddr)
    (hops : state.operands = operands.map SSAValue.cfg) :
    ∃ (block : Nat) (b1 : CFGFuncBuilder) (h1 : Heap),
      b.createBlock h = (block, b1, h1) ∧
      block ∉ h.blocks b.function ∧
      h1.operations block = [] ∧
      h1.blocks b.function = h.blocks b.function ++ [block] ∧
      (∀ other, other ≠ block → h1.operations other = h.operations other) ∧
      (∀ function, function ≠ b.function → h1.blocks function = h.blocks function) ∧
      b1.function = b.function ∧ b1.block = some block ∧
      b1.insertPoint = ilist.begin OperationInst.addr (h1.operations block) ∧
      ∃ (op : OperationInst) (h2 : Heap),
        b1.createOperation assertions h1 state = (.ok op, b1, h2) ∧
        h2.operations block = [op] ∧
        (∀ other, other ≠ block → h2.operations other = h.operations other) ∧
        h2.blocks b.function = h.blocks b.function ++ [block] := by
  have hops1 : (store h.operations h.nextAddr [] : Nat → List OperationInst) h.nextAddr = [] :=
    store_same _ _ _
  refine ⟨h.nextAddr, _, _, rfl, ?_, ?_, ?_, ?_, ?_, rfl, rfl, rfl, ?_⟩
  · intro hmem
    have := halloc _ hmem
    omega
  · exact hops1
  · simp only [BasicBlock.new, store_same]
  · intro other hne
    simp only [BasicBlock.new, store_other _ _ _ _ hne]
  · intro function hne
    simp only [BasicBlock.new, store_other _ _ _ _ hne]
  · have hip : (b.setInsertionPoint h.nextAddr
        { (BasicBlock.new h).2 with
          blocks := store (BasicBlock.new h).2.blocks b.function
            ((BasicBlock.new h).2.blocks b.function ++ [(BasicBlock.new h).1]) }).insertPoint
        = .atEnd := by
      simp only [CFGFuncBuilder.setInsertionPoint, BasicBlock.new, store_same, ilist.begin]
    obtain ⟨h2, e2, -, l2, -, -, -, o2, b2, -⟩ :=
      CFGFuncBuilder.createOperation_step
        (b.setInsertionPoint h.nextAddr
          { (BasicBlock.new h).2 with
            blocks := store (BasicBlock.new h).2.blocks b.function
              ((BasicBlock.new h).2.blocks b.function ++ [(BasicBlock.new h).1]) })
        assertions
        { (BasicBlock.new h).2 with
          blocks := store (BasicBlock.new h).2.blocks b.function
            ((BasicBlock.new h).2.blocks b.function ++ [(BasicBlock.new h).1]) }
        state operands h.nextAddr hops rfl
        (by rw [hip]; trivial)
        (by intro a ha; rw [hip] at ha; cases ha)
    refine ⟨_, h2, e2, ?_, ?_, ?_⟩
    · rw [l2, hip]
      simp only [BasicBlock.new, store_same, ilist.front, ilist.back, List.nil_append]
    · intro other hne
      rw [o2 other hne]
      simp only [BasicBlock.new, store_other _ _ _ _ hne]
    · rw [b2]
      simp only [BasicBlock.new, store_same]

/-- C6. Default loop step: with the tree builder positioned in an allocated
block at a valid iterator, `createFor` with a null step returns a loop whose
bounds are the given ones and whose step is the reference that
`getConstantExpr(1)` answers, which the context left behind resolves to the
affine constant 1; with a step supplied, the loop carries the given bounds and
exactly the supplied step, and the context is not touched. -/
theorem createFor_default_step (b : MLFuncBuilder) (h : Heap)
    (lowerBound upperBound : AffineExprRef) (block : Nat)
    (hb : b.block = some block) (hblock : block < h.nextAddr)
    (hv : ilist.valid Statement.addr (h.statements block) b.insertPoint) :
    (∃ (stmt : ForStmt) (h1 : Heap),
      b.createFor h lowerBound upperBound none = (.ok stmt, b, h1) ∧
      stmt.lowerBound = lowerBound ∧ stmt.upperBound = upperBound ∧
      stmt.step = (Builder.getConstantExpr 1 h.context).1 ∧
      h1.context.affineExprs.get? stmt.step = some (AffineExprKey.constant 1)) ∧
    (∀ step : AffineExprRef, ∃ (stmt : ForStmt) (h1 : Heap),
      b.createFor h lowerBound upperBound (some step) = (.ok stmt, b, h1) ∧
      stmt.lowerBound = lowerBound ∧ stmt.upperBound = upperBound ∧ stmt.step = step ∧
      h1.context = h.context) := by
  have hne : block ≠ h.nextAddr := by omega
  constructor
  · refine ⟨_, _, MLFuncBuilder.createFor_eq b h lowerBound upperBound none block hb hne hv,
      rfl, rfl, rfl, ?_⟩
    exact intern_lookup h.context.affineExprs (AffineExprKey.constant 1)
  · intro step
    exact ⟨_, _, MLFuncBuilder.createFor_eq b h lowerBound upperBound (some step) block hb hne hv,
      rfl, rfl, rfl, rfl⟩

/-- C8. The cursor is not advanced: whatever the outcome, `createOperation` of
the graph builder and of the tree builder, and `createFor`, return the builder
with the same block and the same insertion point they were called with;
`createBlock` is the one that moves the cursor, into the block it creates. -/
theorem createOperation_keeps_cursor (cb : CFGFuncBuilder) (mb : MLFuncBuilder)
    (assertions : Bool) (h : Heap)
    (state : OperationState) (lowerBound upperBound : AffineExprRef)
    (step : Option AffineExprRef) :
    (cb.createOperation assertions h state).2.1 = cb ∧
    (mb.createOperation assertions h state).2.1 = mb ∧
    (mb.createFor h lowerBound upperBound step).2.1 = mb ∧
    (cb.createBlock h).2.1 = ⟨cb.function, some h.nextAddr, .atEnd⟩ := by
  refine ⟨?_, ?_, ?_, ?_⟩
  · unfold CFGFuncBuilder.createOperation
    dsimp only
    split <;> (try split) <;> (try split) <;> rfl
  · unfold MLFuncBuilder.createOperation
    dsimp only
    split <;> (try split) <;> (try split) <;> rfl
  · unfold MLFuncBuilder.createFor
    dsimp only
    split <;> (try split) <;> (try split) <;> rfl
  · simp only [CFGFuncBuilder.createBlock, CFGFuncBuilder.setInsertionPoint, BasicBlock.new,
      store_same, ilist.begin]

/-- C9. Loop splicing: with the tree builder positioned in an allocated block
whose statements were allocated, at a valid iterator, `createFor` returns a
loop that is not in the block yet and whose body is empty; the statement list
of the block afterwards is the old list, split at the insertion point, with
the loop in between; the builder is returned as it was, its block being the
enclosing block and not the loop. A `createOperation` that follows, for a
description whose operands are tree values, links its statement in the
enclosing block right after the loop, and the body of the loop stays empty. -/
theorem createFor_links_loop_in_enclosing_block (b : MLFuncBuilder) (assertions : Bool)
    (h : Heap)
    (lowerBound upperBound : AffineExprRef) (step : Option AffineExprRef) (block : Nat)
    (state : OperationState) (operands : List MLValue)
    (hb : b.block = some block) (hblock : block < h.nextAddr)
    (hv : ilist.valid Statement.addr (h.statements block) b.insertPoint)
    (halloc : ∀ x ∈ h.statements block, x.addr < h.nextAddr)
    (hops : state.operands = operands.map SSAValue.ml) :
    ∃ (stmt : ForStmt) (h1 : Heap),
      b.createFor h lowerBound upperBound step = (.ok stmt, b, h1) ∧
      Statement.forStmt stmt ∉ h.statements block ∧
      h.statements block =
        ilist.front Statement.addr (h.statements block) b.insertPoint ++
          ilist.back Statement.addr (h.statements block) b.insertPoint ∧
      h1.statements block =
        ilist.front Statement.addr (h.statements block) b.insertPoint ++
          Statement.forStmt stmt ::
          ilist.back Statement.addr (h.statements block) b.insertPoint ∧
      h1.statements stmt.addr = [] ∧
      b.block ≠ some stmt.addr ∧
      (∀ other, other ≠ block → other ≠ stmt.addr → h1.statements other = h.statements other) ∧
      ∃ (op : OperationStmt) (h2 : Heap),
        b.createOperation assertions h1 state = (.ok op, b, h2) ∧
        h2.statements block =
          ilist.front Statement.addr (h.statements block) b.insertPoint ++
            Statement.forStmt stmt :: Statement.operationStmt op ::
            ilist.back Statement.addr (h.statements block) b.insertPoint ∧
        h2.statements stmt.addr = [] := by
  have hlt := ilist.valid_lt Statement.addr _ _ _ hv halloc
  obtain ⟨h1, e1, n1, l1, body1, v1, f1, k1, o1, -⟩ :=
    MLFuncBuilder.createFor_step b h lowerBound upperBound step block hb hblock hv hlt
  obtain ⟨h2, e2, -, l2, -, -, -, o2, -⟩ :=
    MLFuncBuilder.createOperationStmt_step b assertions h1 state operands block hops hb v1
      (by intro a ha; have := hlt a ha; omega)
  rw [f1, k1] at l2
  have hne : h.nextAddr ≠ block := by omega
  refine ⟨_, h1, e1, ?_, (ilist.front_append_back _ _ _).symm, l1, body1, ?_, o1,
    _, h2, e2, ?_, ?_⟩
  · intro hmem
    have := halloc _ hmem
    simp [Statement.addr] at this
  · rw [hb]
    intro heq
    injection heq with heq
    exact hne heq.symm
  · rw [l2]; simp
  · show h2.statements h.nextAddr = []
    rw [o2 _ hne]
    exact body1

/-- C7. Interning uniqueness through the `Builder` facade: on one context, let
a factory call answer the reference r1, let any factory calls follow, and let
a factory call then answer the reference r2. Repeating the first call at that
point answers r1 again, and r1 and r2 are the identical reference exactly when
the two calls are the same factory with equal arguments; calls that differ in
the factory or in any argument get distinct references. -/
theorem builder_factories_unique (incompatible : List Int → List AffineMapRef → Bool)
    (context : MLIRContext) (call1 call2 : FactoryCall) (between : List FactoryCall)
    (r1 r2 : ValueRef)
    (h1 : (call1.run incompatible context).1 = .ok r1)
    (h2 : (call2.run incompatible
      (FactoryCall.runAll incompatible between (call1.run incompatible context).2)).1 = .ok r2) :
    (call1.run incompatible
      (FactoryCall.runAll incompatible between (call1.run incompatible context).2)).1 = .ok r1 ∧
    (r1 = r2 ↔ call1 = call2) := by
  by_cases hm1 : call1.malformed incompatible = true
  · rw [FactoryCall.run_eq] at h1
    simp [hm1] at h1
  have hrun1 : call1.run incompatible context =
      (.ok (context.internKey call1.key).1, (context.internKey call1.key).2) := by
    rw [FactoryCall.run_eq]; simp [hm1]
  rw [hrun1] at h1 h2 ⊢
  have hle := FactoryCall.runAll_le incompatible between (context.internKey call1.key).2
  by_cases hm2 : call2.malformed incompatible = true
  · rw [FactoryCall.run_eq] at h2
    simp [hm2] at h2
  rw [FactoryCall.run_eq] at h2 ⊢
  simp only [hm1, hm2, if_false, Except.ok.injEq, Bool.false_eq_true] at h1 h2 ⊢
  subst h1 h2
  constructor
  · exact ((MLIRContext.internKey_unique context _ call1.key call1.key hle).2 rfl).symm
  · rw [MLIRContext.internKey_unique context _ call1.key call2.key hle]
    exact ⟨FactoryCall.key_inj, fun heq => by rw [heq]⟩

/-- C10. The five affine binary combinators: each hands to the context the key
of a binary node of its own operator kind, with lhs as left and rhs as right
operand, and the node it returns is registered under that key; keys of
different kinds over the same operands are different keys, and so are the
nodes they are answered with. -/
theorem binary_combinators_request_own_kind (lhs rhs : AffineExprRef) (context : MLIRContext) :
    (Builder.getAddExpr lhs rhs context =
        context.internAffineExpr (.binary .Add lhs rhs) ∧
      Builder.getMulExpr lhs rhs context =
        context.internAffineExpr (.binary .Mul lhs rhs) ∧
      Builder.getModExpr lhs rhs context =
        context.internAffineExpr (.binary .Mod lhs rhs) ∧
      Builder.getFloorDivExpr lhs rhs context =
        context.internAffineExpr (.binary .FloorDiv lhs rhs) ∧
      Builder.getCeilDivExpr lhs rhs context =
        context.internAffineExpr (.binary .CeilDiv lhs rhs)) ∧
    (∀ kind : AffineExpr.Kind,
      (context.internAffineExpr (.binary kind lhs rhs)).2.affineExprs.get?
        (context.internAffineExpr (.binary kind lhs rhs)).1 = some (.binary kind lhs rhs)) ∧
    (∀ kind1 kind2 : AffineExpr.Kind, kind1 ≠ kind2 →
      AffineExprKey.binary kind1 lhs rhs ≠ AffineExprKey.binary kind2 lhs rhs ∧
      (context.internAffineExpr (.binary kind1 lhs rhs)).1 ≠
        ((context.internAffineExpr (.binary kind1 lhs rhs)).2.internAffineExpr
          (.binary kind2 lhs rhs)).1) := by
  refine ⟨⟨rfl, rfl, rfl, rfl, rfl⟩, ?_, ?_⟩
  · intro kind
    exact intern_lookup context.affineExprs (.binary kind lhs rhs)
  · intro kind1 kind2 hne
    have hkey : AffineExprKey.binary kind1 lhs rhs ≠ AffineExprKey.binary kind2 lhs rhs := by
      intro heq
      injection heq with hk
      exact hne hk
    refine ⟨hkey, ?_⟩
    intro heq
    exact hkey ((intern_unique context.affineExprs _ _ _ (List.prefix_refl _)).1 heq)

/-! ## The theorems at the concrete heap -/

theorem createOperation_preserves_insertion_order_witness :
    ∃ (A B C : OperationInst) (h1 h2 h3 : Heap),
      Example.cfgBuilder.createOperation true Example.heap (Example.cfgState 10) =
        (.ok A, Example.cfgBuilder, h1) ∧
      Example.cfgBuilder.createOperation true h1 (Example.cfgState 11) =
        (.ok B, Example.cfgBuilder, h2) ∧
      Example.cfgBuilder.createOperation true h2 (Example.cfgState 12) =
        (.ok C, Example.cfgBuilder, h3) ∧
      (A.name = 10 ∧ A.operands = [⟨2⟩, ⟨2⟩] ∧ A.types = [0] ∧ A.attributes = [(1, 0)]) ∧
      (B.name = 11 ∧ B.operands = [⟨2⟩, ⟨2⟩] ∧ B.types = [0] ∧ B.attributes = [(1, 0)]) ∧
      (C.name = 12 ∧ C.operands = [⟨2⟩, ⟨2⟩] ∧ C.types = [0] ∧ C.attributes = [(1, 0)]) ∧
      (A.addr ≠ B.addr ∧ A.addr ≠ C.addr ∧ B.addr ≠ C.addr) ∧
      Example.heap.operations 1 =
        ilist.front OperationInst.addr (Example.heap.operations 1) (.atNode 2) ++
          ilist.back OperationInst.addr (Example.heap.operations 1) (.atNode 2) ∧
      h3.operations 1 =
        ilist.front OperationInst.addr (Example.heap.operations 1) (.atNode 2) ++ [A, B, C] ++
          ilist.back OperationInst.addr (Example.heap.operations 1) (.atNode 2) ∧
      (Example.heap.operations 1 = [] → h3.operations 1 = [A, B, C]) :=
  createOperation_preserves_insertion_order Example.cfgBuilder true Example.heap 1
    (Example.cfgState 10) (Example.cfgState 11) (Example.cfgState 12) [⟨2⟩, ⟨2⟩] [⟨2⟩, ⟨2⟩]
    [⟨2⟩, ⟨2⟩] rfl (by decide) (by decide) rfl rfl rfl

theorem createOperation_links_described_node_witness :
    (∃ (op : OperationInst) (h1 : Heap),
      Example.cfgBuilder.createOperation true Example.heap (Example.cfgState 10) =
        (.ok op, Example.cfgBuilder, h1) ∧
      op.name = (Example.cfgState 10).name ∧
      op.operands.map SSAValue.cfg = (Example.cfgState 10).operands ∧
      op.operands.length = (Example.cfgState 10).operands.length ∧
      op.types = (Example.cfgState 10).types ∧ op.attributes = (Example.cfgState 10).attributes ∧
      op ∉ Example.heap.operations 1 ∧
      Example.heap.operations 1 =
        ilist.front OperationInst.addr (Example.heap.operations 1)
            Example.cfgBuilder.insertPoint ++
          ilist.back OperationInst.addr (Example.heap.operations 1)
            Example.cfgBuilder.insertPoint ∧
      h1.operations 1 =
        ilist.front OperationInst.addr (Example.heap.operations 1)
            Example.cfgBuilder.insertPoint ++ op ::
          ilist.back OperationInst.addr (Example.heap.operations 1)
            Example.cfgBuilder.insertPoint ∧
      (∀ a, Example.cfgBuilder.insertPoint = .atNode a → ∃ x rest,
        ilist.back OperationInst.addr (Example.heap.operations 1)
          Example.cfgBuilder.insertPoint = x :: rest ∧ x.addr = a) ∧
      (Example.cfgBuilder.insertPoint = .atEnd →
        ilist.back OperationInst.addr (Example.heap.operations 1)
          Example.cfgBuilder.insertPoint = []) ∧
      (∀ other, other ≠ 1 → h1.operations other = Example.heap.operations other) ∧
      h1.blocks = Example.heap.blocks) ∧
    (∃ (op : OperationStmt) (h1 : Heap),
      Example.mlBuilder.createOperation true Example.heap (Example.mlState 11) =
        (.ok op, Example.mlBuilder, h1) ∧
      op.name = (Example.mlState 11).name ∧
      op.operands.map SSAValue.ml = (Example.mlState 11).operands ∧
      op.operands.length = (Example.mlState 11).operands.length ∧
      op.types = (Example.mlState 11).types ∧ op.attributes = (Example.mlState 11).attributes ∧
      Statement.operationStmt op ∉ Example.heap.statements 3 ∧
      Example.heap.statements 3 =
        ilist.front Statement.addr (Example.heap.statements 3) Example.mlBuilder.insertPoint ++
          ilist.back Statement.addr (Example.heap.statements 3) Example.mlBuilder.insertPoint ∧
      h1.statements 3 =
        ilist.front Statement.addr (Example.heap.statements 3) Example.mlBuilder.insertPoint ++
          Statement.operationStmt op ::
          ilist.back Statement.addr (Example.heap.statements 3) Example.mlBuilder.insertPoint ∧
      (∀ a, Example.mlBuilder.insertPoint = .atNode a → ∃ x rest,
        ilist.back Statement.addr (Example.heap.statements 3)
          Example.mlBuilder.insertPoint = x :: rest ∧ x.addr = a) ∧
      (Example.mlBuilder.insertPoint = .atEnd →
        ilist.back Statement.addr (Example.heap.statements 3)
          Example.mlBuilder.insertPoint = []) ∧
      (∀ other, other ≠ 3 → h1.statements other = Example.heap.statements other)) :=
  createOperation_links_described_node true Example.heap
    Example.cfgBuilder 1 (Example.cfgState 10) [⟨2⟩, ⟨2⟩]
    Example.mlBuilder 3 (Example.mlState 11) [⟨4⟩]
    rfl rfl (by decide) (by decide) rfl rfl (by decide) (by decide)

/-- Against C3 as stated: the description `mixedState` has a graph operand, yet
with the assertion compiled out `MLFuncBuilder::createOperation` answers no
error: it returns the node at address 5, and the statement sequence of the
body at 3, which was the statement at 4, is then the new node followed by the
statement at 4. -/
theorem MLFuncBuilder_createOperation_cfg_operand_not_rejected :
    (∃ value, SSAValue.cfg value ∈ Example.mixedState.operands) ∧
    (Example.mlBuilder.createOperation false Example.heap Example.mixedState).1 =
      .ok ⟨5, 9, [⟨2⟩, ⟨4⟩], [0], []⟩ ∧
    (¬ ∃ e, (Example.mlBuilder.createOperation false Example.heap Example.mixedState).1 =
      Except.error e) ∧
    (Example.mlBuilder.createOperation false Example.heap Example.mixedState).2.2.statements 3 =
      [.operationStmt ⟨5, 9, [⟨2⟩, ⟨4⟩], [0], []⟩, .operationStmt ⟨4, 0, [], [0], []⟩] ∧
    (Example.mlBuilder.createOperation false Example.heap Example.mixedState).2.2.statements 3 ≠
      Example.heap.statements 3 := by
  refine ⟨⟨⟨2⟩, by decide⟩, rfl, ?_, rfl, by decide⟩
  rintro ⟨e, he⟩
  have hok : (Example.mlBuilder.createOperation false Example.heap Example.mixedState).1 =
      .ok ⟨5, 9, [⟨2⟩, ⟨4⟩], [0], []⟩ := rfl
  rw [hok] at he
  cases he

theorem MLFuncBuilder_createOperation_cfg_operand_aborts_or_links_witness :
    (Example.mlBuilder.createOperation true Example.heap Example.mixedState =
        (.error .aborted, Example.mlBuilder, Example.heap) ∧
      ∀ block, (Example.mlBuilder.createOperation true Example.heap
        Example.mixedState).2.2.statements block = Example.heap.statements block) ∧
    (∀ block, Example.mlBuilder.block = some block →
      ilist.valid Statement.addr (Example.heap.statements block) Example.mlBuilder.insertPoint →
      ∃ (op : OperationStmt) (h1 : Heap),
        Example.mlBuilder.createOperation false Example.heap Example.mixedState =
          (.ok op, Example.mlBuilder, h1) ∧
        op.name = Example.mixedState.name ∧
        op.operands = Example.mixedState.operands.map (fun elt => (⟨elt.addr⟩ : MLValue)) ∧
        op.types = Example.mixedState.types ∧ op.attributes = Example.mixedState.attributes ∧
        h1.statements block =
          ilist.front Statement.addr (Example.heap.statements block)
              Example.mlBuilder.insertPoint ++
            Statement.operationStmt op ::
            ilist.back Statement.addr (Example.heap.statements block)
              Example.mlBuilder.insertPoint) :=
  MLFuncBuilder_createOperation_cfg_operand_aborts_or_links Example.mlBuilder Example.heap
    Example.mixedState ⟨⟨2⟩, by decide⟩

/-- Against C4 as stated: the description `mixedState` has a tree operand after
a graph operand, yet with the assertion compiled out
`CFGFuncBuilder::createOperation` does not fail: it returns the node at
address 5, the allocator has moved on, and the operation sequence of block 1,
which was the operation at 2, is then the new node followed by the operation
at 2. -/
theorem CFGFuncBuilder_createOperation_ml_operand_not_rejected :
    (∃ value, SSAValue.ml value ∈ Example.mixedState.operands) ∧
    (Example.cfgBuilder.createOperation false Example.heap Example.mixedState).1 =
      .ok ⟨5, 9, [⟨2⟩, ⟨4⟩], [0], []⟩ ∧
    (¬ ∃ e, (Example.cfgBuilder.createOperation false Example.heap Example.mixedState).1 =
      Except.error e) ∧
    (Example.cfgBuilder.createOperation false Example.heap Example.mixedState).2.2.operations 1 =
      [⟨5, 9, [⟨2⟩, ⟨4⟩], [0], []⟩, ⟨2, 0, [], [0], []⟩] ∧
    (Example.cfgBuilder.createOperation false Example.heap Example.mixedState).2.2.operations 1 ≠
      Example.heap.operations 1 ∧
    (Example.cfgBuilder.createOperation false Example.heap Example.mixedState).2.2.nextAddr ≠
      Example.heap.nextAddr := by
  refine ⟨⟨⟨4⟩, by decide⟩, rfl, ?_, rfl, by decide, by decide⟩
  rintro ⟨e, he⟩
  have hok : (Example.cfgBuilder.createOperation false Example.heap Example.mixedState).1 =
      .ok ⟨5, 9, [⟨2⟩, ⟨4⟩], [0], []⟩ := rfl
  rw [hok] at he
  cases he

theorem CFGFuncBuilder_createOperation_ml_operand_aborts_or_links_witness :
    (Example.cfgBuilder.createOperation true Example.heap Example.mixedState =
        (.error .aborted, Example.cfgBuilder, Example.heap) ∧
      (∀ block, (Example.cfgBuilder.createOperation true Example.heap
        Example.mixedState).2.2.operations block = Example.heap.operations block) ∧
      (∀ function, (Example.cfgBuilder.createOperation true Example.heap
        Example.mixedState).2.2.blocks function = Example.heap.blocks function) ∧
      (Example.cfgBuilder.createOperation true Example.heap Example.mixedState).2.2.nextAddr =
        Example.heap.nextAddr ∧
      (Example.cfgBuilder.createOperation true Example.heap Example.mixedState).2.1 =
        Example.cfgBuilder) ∧
    (∀ block, Example.cfgBuilder.block = some block →
      ilist.valid OperationInst.addr (Example.heap.operations block)
        Example.cfgBuilder.insertPoint →
      ∃ (op : OperationInst) (h1 : Heap),
        Example.cfgBuilder.createOperation false Example.heap Example.mixedState =
          (.ok op, Example.cfgBuilder, h1) ∧
        op.name = Example.mixedState.name ∧
        op.operands = Example.mixedState.operands.map (fun elt => (⟨elt.addr⟩ : CFGValue)) ∧
        op.types = Example.mixedState.types ∧ op.attributes = Example.mixedState.attributes ∧
        h1.operations block =
          ilist.front OperationInst.addr (Example.heap.operations block)
              Example.cfgBuilder.insertPoint ++ op ::
            ilist.back OperationInst.addr (Example.heap.operations block)
              Example.cfgBuilder.insertPoint ∧
        h1.blocks = Example.heap.blocks) :=
  CFGFuncBuilder_createOperation_ml_operand_aborts_or_links Example.cfgBuilder Example.heap
    Example.mixedState ⟨⟨4⟩, by decide⟩

theorem createBlock_appends_block_and_moves_cursor_witness :
    ∃ (block : Nat) (b1 : CFGFuncBuilder) (h1 : Heap),
      Example.cfgBuilder.createBlock Example.heap = (block, b1, h1) ∧
      block ∉ Example.heap.blocks Example.cfgBuilder.function ∧
      h1.operations block = [] ∧
      h1.blocks Example.cfgBuilder.function =
        Example.heap.blocks Example.cfgBuilder.function ++ [block] ∧
      (∀ other, other ≠ block → h1.operations other = Example.heap.operations other) ∧
      (∀ function, function ≠ Example.cfgBuilder.function →
        h1.blocks function = Example.heap.blocks function) ∧
      b1.function = Example.cfgBuilder.function ∧ b1.block = some block ∧
      b1.insertPoint = ilist.begin OperationInst.addr (h1.operations block) ∧
      ∃ (op : OperationInst) (h2 : Heap),
        b1.createOperation true h1 (Example.cfgState 10) = (.ok op, b1, h2) ∧
        h2.operations block = [op] ∧
        (∀ other, other ≠ block → h2.operations other = Example.heap.operations other) ∧
        h2.blocks Example.cfgBuilder.function =
          Example.heap.blocks Example.cfgBuilder.function ++ [block] :=
  createBlock_appends_block_and_moves_cursor Example.cfgBuilder true Example.heap
    (Example.cfgState 10) [⟨2⟩, ⟨2⟩] (by decide) rfl

theorem createFor_default_step_witness :
    (∃ (stmt : ForStmt) (h1 : Heap),
      Example.mlBuilder.createFor Example.heap 2 3 none = (.ok stmt, Example.mlBuilder, h1) ∧
      stmt.lowerBound = 2 ∧ stmt.upperBound = 3 ∧
      stmt.step = (Builder.getConstantExpr 1 Example.heap.context).1 ∧
      h1.context.affineExprs.get? stmt.step = some (AffineExprKey.constant 1)) ∧
    (∀ step : AffineExprRef, ∃ (stmt : ForStmt) (h1 : Heap),
      Example.mlBuilder.createFor Example.heap 2 3 (some step) =
        (.ok stmt, Example.mlBuilder, h1) ∧
      stmt.lowerBound = 2 ∧ stmt.upperBound = 3 ∧ stmt.step = step ∧
      h1.context = Example.heap.context) :=
  createFor_default_step Example.mlBuilder Example.heap 2 3 3 rfl (by decide) (by decide)

theorem builder_factories_unique_witness :
    (((FactoryCall.getAddExpr 0 1).run Example.incompatible
      (FactoryCall.runAll Example.incompatible
        [.getDimExpr 0, .getConstantExpr 1, .getMemRefType [4] 0 [0, 0] 0, .getF32Type]
        ((FactoryCall.getAddExpr 0 1).run Example.incompatible Example.context).2)).1 =
        .ok (.affineExpr 4) ∧
      (ValueRef.affineExpr 4 = ValueRef.affineExpr 4 ↔
        FactoryCall.getAddExpr 0 1 = FactoryCall.getAddExpr 0 1)) ∧
    ((FactoryCall.getF32Type.run Example.incompatible
      (FactoryCall.runAll Example.incompatible []
        (FactoryCall.getF32Type.run Example.incompatible Example.context).2)).1 =
        .ok (.type 0) ∧
      (ValueRef.type 0 = ValueRef.type 0 ↔ FactoryCall.getF32Type = FactoryCall.getF32Type)) ∧
    (((FactoryCall.getIntegerType 16).run Example.incompatible
      (FactoryCall.runAll Example.incompatible []
        ((FactoryCall.getIntegerType 16).run Example.incompatible Example.context).2)).1 =
        .ok (.type 1) ∧
      (ValueRef.type 1 = ValueRef.type 2 ↔
        FactoryCall.getIntegerType 16 = FactoryCall.getIntegerType 32)) :=
  ⟨builder_factories_unique Example.incompatible Example.context (.getAddExpr 0 1)
      (.getAddExpr 0 1) [.getDimExpr 0, .getConstantExpr 1, .getMemRefType [4] 0 [0, 0] 0,
        .getF32Type] (.affineExpr 4) (.affineExpr 4) rfl rfl,
    builder_factories_unique Example.incompatible Example.context .getF32Type .getF32Type []
      (.type 0) (.type 0) rfl rfl,
    builder_factories_unique Example.incompatible Example.context (.getIntegerType 16)
      (.getIntegerType 32) [] (.type 1) (.type 2) rfl rfl⟩

theorem createFor_links_loop_in_enclosing_block_witness :
    ∃ (stmt : ForStmt) (h1 : Heap),
      Example.mlBuilder.createFor Example.heap 2 3 none = (.ok stmt, Example.mlBuilder, h1) ∧
      Statement.forStmt stmt ∉ Example.heap.statements 3 ∧
      Example.heap.statements 3 =
        ilist.front Statement.addr (Example.heap.statements 3) Example.mlBuilder.insertPoint ++
          ilist.back Statement.addr (Example.heap.statements 3) Example.mlBuilder.insertPoint ∧
      h1.statements 3 =
        ilist.front Statement.addr (Example.heap.statements 3) Example.mlBuilder.insertPoint ++
          Statement.forStmt stmt ::
          ilist.back Statement.addr (Example.heap.statements 3) Example.mlBuilder.insertPoint ∧
      h1.statements stmt.addr = [] ∧
      Example.mlBuilder.block ≠ some stmt.addr ∧
      (∀ other, other ≠ 3 → other ≠ stmt.addr →
        h1.statements other = Example.heap.statements other) ∧
      ∃ (op : OperationStmt) (h2 : Heap),
        Example.mlBuilder.createOperation true h1 (Example.mlState 11) =
          (.ok op, Example.mlBuilder, h2) ∧
        h2.statements 3 =
          ilist.front Statement.addr (Example.heap.statements 3)
              Example.mlBuilder.insertPoint ++
            Statement.forStmt stmt :: Statement.operationStmt op ::
            ilist.back Statement.addr (Example.heap.statements 3)
              Example.mlBuilder.insertPoint ∧
        h2.statements stmt.addr = [] :=
  createFor_links_loop_in_enclosing_block Example.mlBuilder true Example.heap 2 3 none 3
    (Example.mlState 11) [⟨4⟩] rfl (by decide) (by decide) (by decide) rfl

end mlir
